import Mathlib

/-!
Verification development for the `sql_select_parser` repository.

The repository's core (`src/lib.rs`) is a pest-grammar-driven parser for a
constrained subset of SQL SELECT statements.  The Rust side consists of:
  * the data model (`SelectQuery`, `SelectItem`, `Table`, `Condition`, `Value`),
  * the error enumeration `ParseError`,
  * the AST builder (`build_query_structure`, `selected_rows_parser`,
    `parse_select_item`, `table_parser`, `where_parser`, `parse_condition`,
    `parse_value`) walking pest's concrete parse tree of `Pair`s,
  * the entry point `parse_query`.
All of those are embedded below directly from the source.

The grammar file `sql.pest` itself is not part of the available sources; the
recognizer is therefore modelled from the specification (its informal EBNF,
lexical rules and required error outcomes) as a fuel-indexed recursive-descent
parser producing the same `Pair` trees pest would hand to the builder.
-/

namespace SqlSelect

/-- Grammar rule tags, as referenced by the Rust builder via `Rule::...`
(`select_query`, `select_list`, `select_item`, `function_call`, `star`,
`identifier`, `table`, `where_clause`, `WHERE`, `condition`, `number`,
`string`, `boolean`), plus the comparison-operator token rule. -/
inductive Rule where
  | select_query
  | select_list
  | select_item
  | function_call
  | star
  | identifier
  | table
  | where_clause
  | WHERE
  | condition
  | comparison_op
  | value
  | number
  | string
  | boolean
  deriving DecidableEq, Repr

/-- A pest `Pair`: a rule-tagged span of the input with nested inner pairs.
`text` models `Pair::as_str` (the builder only ever reads it on token-level
pairs, so composite pairs carry `""`); `inner` models `Pair::into_inner`. -/
inductive Pair where
  | mk (rule : Rule) (text : String) (inner : List Pair)

/-- The rule tag of a pair (`Pair::as_rule`). -/
def Pair.rule : Pair → Rule
  | .mk r _ _ => r

/-- The matched text of a pair (`Pair::as_str`). -/
def Pair.text : Pair → String
  | .mk _ t _ => t

/-- The child pairs (`Pair::into_inner`). -/
def Pair.inner : Pair → List Pair
  | .mk _ _ i => i

/-- `Value` from `lib.rs`: a number (`i64`, modelled as `Int` with the i64
range enforced by the integer parser), a string, or a boolean. -/
inductive Value where
  | Number (n : Int)
  | String (s : String)
  | Boolean (b : Bool)
  deriving DecidableEq, Repr

/-- `Condition` from `lib.rs`: left operand text, operator text, right value. -/
structure Condition where
  left : String
  operator : String
  right : Value
  deriving DecidableEq, Repr

/-- `SelectItem` from `lib.rs`: a named column (also used for `*`) or a
function call with nested select-item arguments. -/
inductive SelectItem where
  | Column (name : String)
  | Function (name : String) (arguments : List SelectItem)

mutual
/-- `Table` from `lib.rs`: a simple table name or a boxed subquery. -/
inductive Table where
  | Simple (name : String)
  | Subquery (q : SelectQuery)

/-- `SelectQuery` from `lib.rs`: selected columns, the table, and an
optional WHERE condition. -/
inductive SelectQuery where
  | mk (columns : List SelectItem) (table : Table) (whereClause : Option Condition)
end

/-- The `columns` field of a `SelectQuery`. -/
def SelectQuery.columns : SelectQuery → List SelectItem
  | .mk c _ _ => c

/-- The `table` field of a `SelectQuery`. -/
def SelectQuery.table : SelectQuery → Table
  | .mk _ t _ => t

/-- The `where_clause` field of a `SelectQuery`. -/
def SelectQuery.whereClause : SelectQuery → Option Condition
  | .mk _ _ w => w

/-- The error kinds of Rust's `<i64 as FromStr>::from_str`
(`std::num::ParseIntError`), as carried by `ParseError::InvalidNumber`. -/
inductive IntParseErrorKind where
  | empty
  | invalidDigit
  | posOverflow
  | negOverflow
  deriving DecidableEq, Repr

/-- `ParseError` from `lib.rs`, variant for variant (17 variants; note that
the source declares both `UnexpectedRuleInSelectList` and
`UnexpectedRuleInSelectListOther` with the same message, and only ever
constructs the latter). -/
inductive ParseError where
  | ParsingError (msg : String)
  | NoQueryFound
  | TableNotSpecified
  | UnexpectedRuleInSelectList
  | UnexpectedRuleInSelectItem
  | MissingSelectItem
  | MissingTableName
  | UnexpectedRuleInTable
  | NoConditionInWhereClause
  | MissingLeftOperand
  | MissingOperator
  | MissingRightOperand
  | InvalidNumber (k : IntParseErrorKind)
  | UnexpectedRuleInValue
  | ExpectedInnerRuleForValue
  | FunctionNameMissing
  | UnexpectedRuleInSelectListOther
  deriving DecidableEq, Repr

/-- Result of a builder stage: a value, a classified `ParseError`, or a Rust
panic.  The only possible panic in the source is the byte slice
`&s[1..s.len() - 1]` in `parse_value`'s string branch. -/
inductive BuildResult (α : Type) where
  | ok (a : α)
  | err (e : ParseError)
  | panicked

/-- The i64 maximum, `9223372036854775807`. -/
def i64MaxNat : Nat := 9223372036854775807

/-- Digit-accumulation loop of Rust's `i64::from_str`: consume ASCII digits,
failing with `invalidDigit` on the first non-digit and with an overflow error
as soon as the accumulated magnitude exceeds `bound`. -/
def parseI64Loop (bound : Nat) (neg : Bool) : List Char → Nat → Except IntParseErrorKind Nat
  | [], acc => .ok acc
  | c :: cs, acc =>
    if c.isDigit then
      let acc2 := acc * 10 + (c.toNat - 48)
      if acc2 ≤ bound then parseI64Loop bound neg cs acc2
      else .error (if neg then .negOverflow else .posOverflow)
    else .error .invalidDigit

/-- The magnitude bound of Rust's i64 accumulation: `2^63` for negative
numbers, `2^63 - 1` for nonnegative ones. -/
def i64Bound : Bool → Nat
  | true => i64MaxNat + 1
  | false => i64MaxNat

/-- Sign-resolved part of Rust's `i64::from_str`: at least one digit must
follow the sign, and the accumulated magnitude is bounded by the i64 range
on the chosen side. -/
def parseI64Signed (neg : Bool) (digits : List Char) : Except IntParseErrorKind Int :=
  match digits with
  | [] => .error .invalidDigit
  | _ :: _ =>
    match parseI64Loop (i64Bound neg) neg digits 0 with
    | .error e => .error e
    | .ok n => .ok (if neg then -(n : Int) else (n : Int))

/-- Rust's `str::parse::<i64>`: optional sign, then ASCII digits, with the
i64 range (`-2^63 ..= 2^63 - 1`) enforced during accumulation. -/
def parse_i64 (s : String) : Except IntParseErrorKind Int :=
  match s.data with
  | [] => .error .empty
  | c :: rest =>
    if c = '-' then parseI64Signed true rest
    else if c = '+' then parseI64Signed false rest
    else parseI64Signed false (c :: rest)

/-- The single-quote character, written via its code point to keep the file
free of quote literals. -/
def quoteChar : Char := Char.ofNat 39

/-- Character-list form of the byte slice `&s[1..s.len() - 1]`: defined
exactly when the string has at least two bytes and both cut points are
character boundaries, i.e. the first and last characters are single-byte. -/
def rustSliceInnerAux : List Char → Option String
  | [] => none
  | c0 :: cs =>
    if c0.utf8Size = 1 then
      match cs.getLast? with
      | none => none
      | some cl => if cl.utf8Size = 1 then some (String.mk cs.dropLast) else none
    else none

/-- Rust's byte slice `&s[1..s.len() - 1]` as a partial operation: `none`
models the panic that occurs when the slice is out of bounds (fewer than two
bytes) or either index is not a character boundary. -/
def rustSliceInner (s : String) : Option String :=
  rustSliceInnerAux s.data

/-- Rust's `str::eq_ignore_ascii_case`: equality after ASCII-lowercasing. -/
def eqIgnoreAsciiCase (a b : String) : Bool :=
  a.data.map Char.toLower == b.data.map Char.toLower

/-- `parse_value` from `lib.rs`: take the value's single inner token; a
`number` is parsed as i64 (`InvalidNumber` on failure), a `string` has its
first and last byte sliced off verbatim (panicking if out of bounds), a
`boolean` compares case-insensitively against `"true"`; other rules are
`UnexpectedRuleInValue`, an absent inner token `ExpectedInnerRuleForValue`. -/
def parse_value (p : Pair) : BuildResult Value :=
  match p.inner with
  | [] => .err .ExpectedInnerRuleForValue
  | innerPair :: _ =>
    match innerPair.rule with
    | .number =>
      match parse_i64 innerPair.text with
      | .ok n => .ok (.Number n)
      | .error e => .err (.InvalidNumber e)
    | .string =>
      match rustSliceInner innerPair.text with
      | some s => .ok (.String s)
      | none => .panicked
    | .boolean => .ok (.Boolean (eqIgnoreAsciiCase innerPair.text "true"))
    | _ => .err .UnexpectedRuleInValue

/-- `parse_condition` from `lib.rs`: read exactly three children in order —
left operand text, operator text, right operand via `parse_value` — with a
position-specific error for each missing child. -/
def parse_condition (p : Pair) : BuildResult Condition :=
  match p.inner with
  | [] => .err .MissingLeftOperand
  | l :: rest1 =>
    match rest1 with
    | [] => .err .MissingOperator
    | o :: rest2 =>
      match rest2 with
      | [] => .err .MissingRightOperand
      | r :: _ =>
        match parse_value r with
        | .ok v => .ok ⟨l.text, o.text, v⟩
        | .err e => .err e
        | .panicked => .panicked

/-- Loop body of `where_parser` from `lib.rs`: scan the clause's children,
skipping the `WHERE` keyword pair, and return the first `condition` child's
parse; if none is found the clause is `NoConditionInWhereClause`. -/
def whereLoop : List Pair → BuildResult Condition
  | [] => .err .NoConditionInWhereClause
  | c :: rest =>
    match c.rule with
    | .WHERE => whereLoop rest
    | .condition => parse_condition c
    | _ => whereLoop rest

/-- `where_parser` from `lib.rs` (named `where_builder` here). -/
def where_builder (p : Pair) : BuildResult Condition :=
  whereLoop p.inner

mutual
/-- `build_query_structure` from `lib.rs`: fold over the query pair's
children, collecting columns, table and where clause, then assemble the
`SelectQuery` (`TableNotSpecified` when no table child was seen). -/
def build_query_structure (p : Pair) : BuildResult SelectQuery :=
  match p with
  | .mk _ _ children => buildFields children [] none none

/-- The child-processing loop of `build_query_structure`, with the `columns`,
`table` and `where_clause` accumulators made explicit. -/
def buildFields : List Pair → List SelectItem → Option Table → Option Condition → BuildResult SelectQuery
  | [], cols, tbl, wc =>
    match tbl with
    | some t => .ok (SelectQuery.mk cols t wc)
    | none => .err .TableNotSpecified
  | c :: rest, cols, tbl, wc =>
    match c.rule with
    | .select_list =>
      match selected_rows_builder c with
      | .ok items => buildFields rest items tbl wc
      | .err e => .err e
      | .panicked => .panicked
    | .table =>
      match table_builder c with
      | .ok t => buildFields rest cols (some t) wc
      | .err e => .err e
      | .panicked => .panicked
    | .where_clause =>
      match where_builder c with
      | .ok cond => buildFields rest cols tbl (some cond)
      | .err e => .err e
      | .panicked => .panicked
    | _ => buildFields rest cols tbl wc

/-- `selected_rows_parser` from `lib.rs` (named `selected_rows_builder`
here): every child of the select list must be a `select_item` (anything else
is `UnexpectedRuleInSelectListOther`); items are built in source order. -/
def selected_rows_builder (p : Pair) : BuildResult (List SelectItem) :=
  match p with
  | .mk _ _ children => selectedRowsLoop children

/-- The child loop of `selected_rows_parser`. -/
def selectedRowsLoop : List Pair → BuildResult (List SelectItem)
  | [] => .ok []
  | c :: rest =>
    match c.rule with
    | .select_item =>
      match parse_select_item c with
      | .ok row =>
        match selectedRowsLoop rest with
        | .ok rows => .ok (row :: rows)
        | .err e => .err e
        | .panicked => .panicked
      | .err e => .err e
      | .panicked => .panicked
    | _ => .err .UnexpectedRuleInSelectListOther

/-- `parse_select_item` from `lib.rs`: inspect the item's first child — an
`identifier` yields `Column`, a `function_call` yields `Function` with the
remaining children built recursively, `star` yields `Column "*"`; any other
child rule is `UnexpectedRuleInSelectItem`, no child is `MissingSelectItem`. -/
def parse_select_item : Pair → BuildResult SelectItem
  | .mk _ _ [] => .err .MissingSelectItem
  | .mk _ _ (.mk irule itext iinner :: _) =>
    match irule with
    | .identifier => .ok (.Column itext)
    | .function_call =>
      match iinner with
      | [] => .err .FunctionNameMissing
      | namePair :: args =>
        match mapSelectItems args with
        | .ok arguments => .ok (.Function namePair.text arguments)
        | .err e => .err e
        | .panicked => .panicked
    | .star => .ok (.Column "*")
    | _ => .err .UnexpectedRuleInSelectItem

/-- The argument loop of `parse_select_item`'s function branch
(`parts.map(parse_select_item)` collected into a `Result`). -/
def mapSelectItems : List Pair → BuildResult (List SelectItem)
  | [] => .ok []
  | a :: rest =>
    match parse_select_item a with
    | .ok i =>
      match mapSelectItems rest with
      | .ok items => .ok (i :: items)
      | .err e => .err e
      | .panicked => .panicked
    | .err e => .err e
    | .panicked => .panicked

/-- `table_parser` from `lib.rs` (named `table_builder` here): the table's
first child is an `identifier` (simple table) or a nested `select_query`
(recursively built and wrapped in `Subquery`); no child is
`MissingTableName`, any other rule is `UnexpectedRuleInTable`. -/
def table_builder : Pair → BuildResult Table
  | .mk _ _ [] => .err .MissingTableName
  | .mk _ _ (firstChild :: _) =>
    match firstChild.rule with
    | .identifier => .ok (.Simple firstChild.text)
    | .select_query =>
      match build_query_structure firstChild with
      | .ok sub => .ok (.Subquery sub)
      | .err e => .err e
      | .panicked => .panicked
    | _ => .err .UnexpectedRuleInTable
end

/-!
## The recognizer

Modelled from the spec: the grammar file `sql.pest` is not among the
available sources, so the recognizer below is built from the specification's
§4.1 — its informal EBNF, lexical rules ("identifiers letter/underscore-led,
alnum/underscore continuation, integer literals, single-quoted string
literals, case-insensitive boolean literals and keywords, whitespace
tolerated between all tokens") — together with the outcomes the spec fixes
for under-shaped inputs ("Inputs missing the select list, missing the FROM
target, or with a WHERE clause lacking operator/right-operand must be
rejected by the recognizer or by the AST Builder — either stage rejecting is
acceptable as long as the final classified error is correct", with §8 fixing
those final errors to missing-select-item, table-not-specified and
missing-operator/right-operand — hence in this grammar the select item, the
FROM-table group, the comparison operator and the right operand are
syntactically optional, and the AST builder classifies their absence).
Keywords are excluded from identifiers (required for `SELECT FROM users` to
reach the missing-select-item classification).  Like pest invoked on the
`select_query` rule, the recognizer matches a prefix of the input; recursion
depth is bounded by a fuel argument, mirroring the host-stack bound the spec
accepts (§5).
-/

/-- Whitespace characters tolerated between tokens. -/
def isWsChar (c : Char) : Bool :=
  c = ' ' || c = Char.ofNat 9 || c = Char.ofNat 10 || c = Char.ofNat 13

/-- Drop leading whitespace. -/
def skipWs (l : List Char) : List Char :=
  l.dropWhile isWsChar

/-- First character of an identifier: ASCII letter or underscore. -/
def isIdentStartChar (c : Char) : Bool :=
  c.isAlpha || c = '_'

/-- Continuation character of an identifier: ASCII alphanumeric or
underscore. -/
def isIdentChar (c : Char) : Bool :=
  c.isAlphanum || c = '_'

/-- Case-insensitive match of the (lowercase) pattern against the input,
returning the rest of the input. -/
def matchCI : List Char → List Char → Option (List Char)
  | [], l => some l
  | _ :: _, [] => none
  | p :: ps, c :: cs => if c.toLower = p then matchCI ps cs else none

/-- The reserved keywords, lowercase. -/
def keywords : List String := ["select", "from", "where"]

/-- Lex one identifier: a maximal letter/underscore-led alnum/underscore run
that is not a keyword (case-insensitively). -/
def identToken (l : List Char) : Option (String × List Char) :=
  match l with
  | [] => none
  | c :: _ =>
    if isIdentStartChar c then
      let run := l.takeWhile isIdentChar
      let rest := l.dropWhile isIdentChar
      if keywords.contains (String.mk (run.map Char.toLower)) then none
      else some (String.mk run, rest)
    else none

/-- Lex one integer literal: a maximal nonempty ASCII digit run. -/
def numberToken (l : List Char) : Option (String × List Char) :=
  match l with
  | [] => none
  | c :: _ =>
    if c.isDigit then
      some (String.mk (l.takeWhile Char.isDigit), l.dropWhile Char.isDigit)
    else none

/-- Lex one single-quoted string literal; the token text keeps both quote
delimiters, exactly as pest's span would. -/
def stringToken (l : List Char) : Option (String × List Char) :=
  match l with
  | [] => none
  | c :: cs =>
    if c = quoteChar then
      let mid := cs.takeWhile (fun d => d ≠ quoteChar)
      match cs.dropWhile (fun d => d ≠ quoteChar) with
      | [] => none
      | _ :: rest => some (String.mk (quoteChar :: mid ++ [quoteChar]), rest)
    else none

/-- Lex one boolean literal (`true` or `false`, case-insensitive); the token
text preserves the source casing. -/
def booleanToken (l : List Char) : Option (String × List Char) :=
  match matchCI "true".data l with
  | some rest => some (String.mk (l.take 4), rest)
  | none =>
    match matchCI "false".data l with
    | some rest => some (String.mk (l.take 5), rest)
    | none => none

/-- Lex one comparison operator (`>=`, `<=`, `!=`, `=`, `>`, `<`). -/
def comparisonOpToken (l : List Char) : Option (String × List Char) :=
  match l with
  | '>' :: '=' :: r => some (">=", r)
  | '<' :: '=' :: r => some ("<=", r)
  | '!' :: '=' :: r => some ("!=", r)
  | '=' :: r => some ("=", r)
  | '>' :: r => some (">", r)
  | '<' :: r => some ("<", r)
  | _ => none

/-- Modelled from the spec: grammar rule `value := number | string | boolean`;
the produced `value` pair wraps the single token pair, as `parse_value`
expects from `into_inner`. -/
def parseValueNode (l : List Char) : Option (Pair × List Char) :=
  let l0 := skipWs l
  match numberToken l0 with
  | some (t, r) => some (Pair.mk .value "" [Pair.mk .number t []], r)
  | none =>
    match stringToken l0 with
    | some (t, r) => some (Pair.mk .value "" [Pair.mk .string t []], r)
    | none =>
      match booleanToken l0 with
      | some (t, r) => some (Pair.mk .value "" [Pair.mk .boolean t []], r)
      | none => none

/-- Modelled from the spec: grammar rule
`condition := operand comparison_op value`, with the operator and the value
syntactically optional so that their absence reaches the builder's
missing-operator / missing-right-operand classification (§4.1/§8). -/
def parseConditionNode (l : List Char) : Option (Pair × List Char) :=
  match identToken (skipWs l) with
  | none => none
  | some (lhs, r1) =>
    let operandPair := Pair.mk .identifier lhs []
    match comparisonOpToken (skipWs r1) with
    | none => some (Pair.mk .condition "" [operandPair], r1)
    | some (op, r2) =>
      let opPair := Pair.mk .comparison_op op []
      match parseValueNode r2 with
      | none => some (Pair.mk .condition "" [operandPair, opPair], r2)
      | some (vp, r3) => some (Pair.mk .condition "" [operandPair, opPair, vp], r3)

/-- Modelled from the spec: the `WHERE condition` clause; the `WHERE`
keyword appears as a child pair (the builder's loop skips `Rule::WHERE`),
and a missing condition leaves a clause with only that child, reaching the
no-condition-in-where-clause classification. -/
def parseWhereClauseNode (l : List Char) : Option (Pair × List Char) :=
  match matchCI "where".data (skipWs l) with
  | none => none
  | some r1 =>
    let kw := Pair.mk .WHERE "" []
    match parseConditionNode r1 with
    | none => some (Pair.mk .where_clause "" [kw], r1)
    | some (cp, r2) => some (Pair.mk .where_clause "" [kw, cp], r2)

/-- Modelled from the spec: the optional `AS identifier` alias after a
parenthesized subquery (§4.1 `table := identifier | '(' select_query ')'
alias?`); it is consumed silently and contributes no pair. -/
def parseAlias (l : List Char) : List Char :=
  match matchCI "as".data (skipWs l) with
  | none => l
  | some r1 =>
    match identToken (skipWs r1) with
    | none => l
    | some (_, r2) => r2

mutual
/-- Modelled from the spec: grammar rule
`select_query := SELECT select_list (FROM table)? (WHERE condition)?`, the
FROM-table group optional so its absence reaches the builder's
table-not-specified classification (§4.1/§8). -/
def parseSelectQuery : Nat → List Char → Option (Pair × List Char)
  | 0, _ => none
  | fuel + 1, l =>
    match matchCI "select".data (skipWs l) with
    | none => none
    | some r1 =>
      match parseSelectList fuel r1 with
      | none => none
      | some (slp, r2) =>
        let fromGroup : List Pair × List Char :=
          match matchCI "from".data (skipWs r2) with
          | none => ([slp], r2)
          | some rf =>
            match parseTable fuel rf with
            | none => ([slp], r2)
            | some (tp, rt) => ([slp, tp], rt)
        match fromGroup with
        | (children, r3) =>
          match parseWhereClauseNode r3 with
          | none => some (Pair.mk .select_query "" children, r3)
          | some (wp, rw) => some (Pair.mk .select_query "" (children ++ [wp]), rw)

/-- Modelled from the spec: grammar rule
`select_list := select_item (',' select_item)*`. -/
def parseSelectList : Nat → List Char → Option (Pair × List Char)
  | 0, _ => none
  | fuel + 1, l =>
    match parseSelectItem fuel l with
    | none => none
    | some (item, r1) =>
      match parseListRest fuel r1 with
      | none => none
      | some (items, r2) => some (Pair.mk .select_list "" (item :: items), r2)

/-- Modelled from the spec: the `(',' select_item)*` tail of a select list
or of a function-call argument list. -/
def parseListRest : Nat → List Char → Option (List Pair × List Char)
  | 0, _ => none
  | fuel + 1, l =>
    match skipWs l with
    | ',' :: r1 =>
      match parseSelectItem fuel r1 with
      | none => none
      | some (item, r2) =>
        match parseListRest fuel r2 with
        | none => none
        | some (items, r3) => some (item :: items, r3)
    | _ => some ([], l)

/-- Modelled from the spec: grammar rule
`select_item := function_call | identifier | '*'`, with an empty alternative
so that a missing item reaches the builder's missing-select-item
classification (§4.1/§8). -/
def parseSelectItem : Nat → List Char → Option (Pair × List Char)
  | 0, _ => none
  | fuel + 1, l =>
    let l0 := skipWs l
    match parseFunctionCall fuel l0 with
    | some (fp, r) => some (Pair.mk .select_item "" [fp], r)
    | none =>
      match identToken l0 with
      | some (nm, r) => some (Pair.mk .select_item "" [Pair.mk .identifier nm []], r)
      | none =>
        match l0 with
        | '*' :: r => some (Pair.mk .select_item "" [Pair.mk .star "*" []], r)
        | _ => some (Pair.mk .select_item "" [], l)

/-- Modelled from the spec: grammar rule
`function_call := identifier '(' select_item (',' select_item)* ')'`; the
children are the name identifier followed by the argument items, as
`parse_select_item` expects. -/
def parseFunctionCall : Nat → List Char → Option (Pair × List Char)
  | 0, _ => none
  | fuel + 1, l =>
    match identToken l with
    | none => none
    | some (nm, r1) =>
      match skipWs r1 with
      | '(' :: r2 =>
        match parseSelectItem fuel r2 with
        | none => none
        | some (arg1, r3) =>
          match parseListRest fuel r3 with
          | none => none
          | some (args, r4) =>
            match skipWs r4 with
            | ')' :: r5 =>
              some (Pair.mk .function_call "" (Pair.mk .identifier nm [] :: arg1 :: args), r5)
            | _ => none
      | _ => none

/-- Modelled from the spec: grammar rule
`table := identifier | '(' select_query ')' alias?`; a nested query becomes
the table pair's single child. -/
def parseTable : Nat → List Char → Option (Pair × List Char)
  | 0, _ => none
  | fuel + 1, l =>
    let l0 := skipWs l
    match identToken l0 with
    | some (nm, r) => some (Pair.mk .table "" [Pair.mk .identifier nm []], r)
    | none =>
      match l0 with
      | '(' :: r1 =>
        match parseSelectQuery fuel r1 with
        | none => none
        | some (qp, r2) =>
          match skipWs r2 with
          | ')' :: r3 => some (Pair.mk .table "" [qp], parseAlias r3)
          | _ => none
      | _ => none
end

/-- Fuel ample for the recursion depth any parse of `l` can reach (each
nesting step consumes input characters). -/
def fuelFor (l : List Char) : Nat :=
  2 * l.length + 8

/-- The recognizer: `SQLParser::parse(Rule::select_query, input)` followed by
`pairs.next()` — the concrete parse tree of the matched prefix, or `none` on
a syntax rejection. -/
def recognize (input : String) : Option Pair :=
  match parseSelectQuery (fuelFor input.data) input.data with
  | none => none
  | some (p, _) => some p

/-- `parse_query` from `lib.rs`: run the recognizer (a rejection becomes
`ParsingError` wrapping the diagnostic text, which the spec leaves
implementation-defined) and hand the tree to `build_query_structure`. -/
def parse_query (input : String) : BuildResult SelectQuery :=
  match recognize input with
  | none => .err (.ParsingError "expected select_query")
  | some p => build_query_structure p

/-!
## Auxiliary definitions for the statements

Shape predicates characterizing the trees the recognizer can emit, the
recursive invariant relation for successfully built queries, the spec's
sixteen-kind error taxonomy, and the input family of claim C1.
-/

/-- Whether some child is a `where_clause` pair — the tree-level rendering of
"a WHERE clause appeared in the input text". -/
def hasWhereChild : List Pair → Bool
  | [] => false
  | c :: rest => decide (c.rule = .where_clause) || hasWhereChild rest

/-- Whether some child is a `select_list` pair. -/
def containsSelectList : List Pair → Bool
  | [] => false
  | c :: rest => decide (c.rule = .select_list) || containsSelectList rest

/-- A token pair is safe for `parse_value`: a `string` token's text must
slice without panicking; all other tokens are unconstrained. -/
def wfToken : Pair → Bool
  | .mk .string t _ => (rustSliceInner t).isSome
  | .mk _ _ _ => true

/-- A value pair is safe: its first inner token (if any) is safe. -/
def wfValueNode : Pair → Bool
  | .mk _ _ [] => true
  | .mk _ _ (tok :: _) => wfToken tok

/-- A condition's children are safe: if a third child exists (the one
`parse_condition` hands to `parse_value`), it is a safe value pair. -/
def wfCondChildren : List Pair → Bool
  | _ :: _ :: v :: _ => wfValueNode v
  | _ => true

/-- A `condition` pair is safe; non-condition pairs are unconstrained (the
where loop only descends into `condition` children). -/
def wfCondNode : Pair → Bool
  | .mk .condition _ inner => wfCondChildren inner
  | .mk _ _ _ => true

/-- All children of a `where_clause` pair are safe condition pairs. -/
def wfWhereInner : List Pair → Bool
  | [] => true
  | c :: rest => wfCondNode c && wfWhereInner rest

mutual
/-- Well-formedness of a `select_query` pair as the recognizer emits it:
it has a `select_list` child, and every child is well-formed. -/
def wfQuery : Pair → Bool
  | .mk _ _ children => containsSelectList children && wfChildren children

/-- Well-formedness of each child in a query pair's child list. -/
def wfChildren : List Pair → Bool
  | [] => true
  | c :: rest => wfChildNode c && wfChildren rest

/-- Well-formedness of one child of a query pair: a `select_list` child is
nonempty, a `table` child has well-formed nested queries, a `where_clause`
child has safe condition children; other children are unconstrained. -/
def wfChildNode : Pair → Bool
  | .mk .select_list _ inner => !inner.isEmpty
  | .mk .table _ inner => wfTableInner inner
  | .mk .where_clause _ inner => wfWhereInner inner
  | .mk _ _ _ => true

/-- Every `select_query` child of a table pair is itself well-formed. -/
def wfTableInner : List Pair → Bool
  | [] => true
  | c :: rest =>
    (match c.rule with
     | .select_query => wfQuery c
     | _ => true) && wfTableInner rest
end

mutual
/-- The §3 invariants of a built `SelectQuery` relative to the parse-tree
pair it was built from: at least one column, the WHERE clause present iff
the pair has a `where_clause` child, and — recursively — every `Subquery`
table built from the nested `select_query` pair inside some `table` child,
satisfying the same invariants against that nested pair. -/
def QInv : Pair → SelectQuery → Prop
  | p, .mk cols tbl wc =>
    cols ≠ [] ∧ (wc.isSome ↔ hasWhereChild p.inner = true) ∧ TInv p tbl

/-- Table part of `QInv`. -/
def TInv : Pair → Table → Prop
  | _, .Simple _ => True
  | p, .Subquery q =>
    ∃ c ∈ p.inner, c.rule = .table ∧
      ∃ sq rest2, c.inner = sq :: rest2 ∧ sq.rule = .select_query ∧ QInv sq q
end

/-- The spec §7 taxonomy: sixteen closed error kinds. -/
inductive ErrorKind where
  | syntaxRejection
  | noQueryFound
  | tableNotSpecified
  | unexpectedNodeInSelectList
  | unexpectedNodeInSelectItem
  | missingSelectItem
  | missingTableName
  | unexpectedNodeInTable
  | noConditionInWhereClause
  | missingLeftOperand
  | missingOperator
  | missingRightOperand
  | invalidNumericLiteral
  | unexpectedNodeInValue
  | missingInnerValueNode
  | functionNameMissing
  deriving DecidableEq

/-- Classification of each `ParseError` variant into the spec's taxonomy;
the two identically-worded select-list variants fall into the same kind. -/
def classify : ParseError → ErrorKind
  | .ParsingError _ => .syntaxRejection
  | .NoQueryFound => .noQueryFound
  | .TableNotSpecified => .tableNotSpecified
  | .UnexpectedRuleInSelectList => .unexpectedNodeInSelectList
  | .UnexpectedRuleInSelectItem => .unexpectedNodeInSelectItem
  | .MissingSelectItem => .missingSelectItem
  | .MissingTableName => .missingTableName
  | .UnexpectedRuleInTable => .unexpectedNodeInTable
  | .NoConditionInWhereClause => .noConditionInWhereClause
  | .MissingLeftOperand => .missingLeftOperand
  | .MissingOperator => .missingOperator
  | .MissingRightOperand => .missingRightOperand
  | .InvalidNumber _ => .invalidNumericLiteral
  | .UnexpectedRuleInValue => .unexpectedNodeInValue
  | .ExpectedInnerRuleForValue => .missingInnerValueNode
  | .FunctionNameMissing => .functionNameMissing
  | .UnexpectedRuleInSelectListOther => .unexpectedNodeInSelectList

/-- The enum discriminant of a `ParseError` (declaration order in the Rust
source): two errors are "distinguishable by kind (enum variant)" iff their
tags differ. -/
def variantTag : ParseError → Nat
  | .ParsingError _ => 0
  | .NoQueryFound => 1
  | .TableNotSpecified => 2
  | .UnexpectedRuleInSelectList => 3
  | .UnexpectedRuleInSelectItem => 4
  | .MissingSelectItem => 5
  | .MissingTableName => 6
  | .UnexpectedRuleInTable => 7
  | .NoConditionInWhereClause => 8
  | .MissingLeftOperand => 9
  | .MissingOperator => 10
  | .MissingRightOperand => 11
  | .InvalidNumber _ => 12
  | .UnexpectedRuleInValue => 13
  | .ExpectedInnerRuleForValue => 14
  | .FunctionNameMissing => 15
  | .UnexpectedRuleInSelectListOther => 16

/-- A valid simple column/table identifier for the C1 input family:
nonempty, letter/underscore-led, alnum/underscore throughout, and not a
keyword (case-insensitively). -/
def isValidIdent (s : String) : Bool :=
  match s.data with
  | [] => false
  | c :: _ =>
    isIdentStartChar c && s.data.all isIdentChar &&
      !(keywords.contains (String.mk (s.data.map Char.toLower)))

/-- Comma-join of the column names, `", "`-separated. -/
def joinCols : List String → String
  | [] => ""
  | [c] => c
  | c :: cs => c ++ ", " ++ joinCols cs

/-- The C1 input family: `SELECT` + comma-separated columns + `FROM` +
table name. -/
def mkSelectInput (cols : List String) (tbl : String) : String :=
  "SELECT " ++ joinCols cols ++ " FROM " ++ tbl

/-- The characters a comma-joined column list contributes after its first
column: empty for no further columns, else `", "` and the rest. -/
def listSepChars : List String → List Char
  | [] => []
  | c :: cs => ',' :: ' ' :: (joinCols (c :: cs)).data

/-- The numeric value of a digit string. -/
def natOfDigits (l : List Char) : Nat :=
  l.foldl (fun a c => a * 10 + (c.toNat - 48)) 0

/-- A builder result never carries the dead `UnexpectedRuleInSelectList`
variant (the source only ever constructs its identically-worded twin). -/
def NoBad {α : Type} (res : BuildResult α) : Prop :=
  ∀ e, res = .err e → e ≠ .UnexpectedRuleInSelectList

/-- The spec's string-literal example, built without quote literals:
`SELECT name FROM users WHERE role = 'admin'`. -/
def adminQuery : String :=
  "SELECT name FROM users WHERE role = " ++ String.singleton quoteChar ++
    "admin" ++ String.singleton quoteChar

/-!
## Helper lemmas
-/

theorem digitsFold_mono (l : List Char) :
    ∀ acc : Nat, acc ≤ l.foldl (fun a c => a * 10 + (c.toNat - 48)) acc := by
  induction l with
  | nil => intro acc; simp
  | cons c cs ih =>
    intro acc
    have h1 : acc ≤ acc * 10 + (c.toNat - 48) := by omega
    calc acc ≤ acc * 10 + (c.toNat - 48) := h1
      _ ≤ _ := ih (acc * 10 + (c.toNat - 48))

theorem parseI64Loop_ok (bound : Nat) (neg : Bool) (l : List Char) :
    ∀ acc : Nat, l.all Char.isDigit →
      l.foldl (fun a c => a * 10 + (c.toNat - 48)) acc ≤ bound →
      parseI64Loop bound neg l acc =
        .ok (l.foldl (fun a c => a * 10 + (c.toNat - 48)) acc) := by
  induction l with
  | nil => intro acc _ _; rfl
  | cons c cs ih =>
    intro acc hall hle
    rw [List.all_cons, Bool.and_eq_true] at hall
    have hc : c.isDigit = true := hall.1
    have hall2 : cs.all Char.isDigit = true := hall.2
    have hfold : (c :: cs).foldl (fun a c => a * 10 + (c.toNat - 48)) acc =
        cs.foldl (fun a c => a * 10 + (c.toNat - 48)) (acc * 10 + (c.toNat - 48)) := rfl
    have hacc2 : acc * 10 + (c.toNat - 48) ≤ bound := by
      have := digitsFold_mono cs (acc * 10 + (c.toNat - 48))
      rw [hfold] at hle; omega
    rw [hfold]
    simp only [parseI64Loop, hc, if_pos hacc2, if_true]
    exact ih _ hall2 (by rw [hfold] at hle; exact hle)

theorem parseI64Loop_overflow (bound : Nat) (neg : Bool) (l : List Char) :
    ∀ acc : Nat, l.all Char.isDigit → acc ≤ bound →
      bound < l.foldl (fun a c => a * 10 + (c.toNat - 48)) acc →
      parseI64Loop bound neg l acc =
        .error (if neg then .negOverflow else .posOverflow) := by
  induction l with
  | nil => intro acc _ hle hgt; simp at hgt; omega
  | cons c cs ih =>
    intro acc hall hle hgt
    rw [List.all_cons, Bool.and_eq_true] at hall
    have hc : c.isDigit = true := hall.1
    have hall2 : cs.all Char.isDigit = true := hall.2
    by_cases h2 : acc * 10 + (c.toNat - 48) ≤ bound
    · simp only [parseI64Loop, hc, if_pos h2, if_true]
      exact ih _ hall2 h2 hgt
    · simp only [parseI64Loop, hc, if_neg h2, if_true]

theorem parseI64Loop_nondigit (bound : Nat) (neg : Bool) (l : List Char) :
    ∀ acc : Nat, (∃ c ∈ l, ¬c.isDigit) →
      ∃ e, parseI64Loop bound neg l acc = .error e := by
  induction l with
  | nil => intro acc h; simp at h
  | cons c cs ih =>
    intro acc h
    by_cases hc : c.isDigit = true
    · have h2 : ∃ d ∈ cs, ¬d.isDigit := by
        obtain ⟨d, hd, hnd⟩ := h
        rcases List.mem_cons.mp hd with h3 | h3
        · subst h3; exact absurd hc hnd
        · exact ⟨d, h3, hnd⟩
      by_cases hb : acc * 10 + (c.toNat - 48) ≤ bound
      · simp only [parseI64Loop, hc, if_pos hb, if_true]
        exact ih _ h2
      · refine ⟨if neg then .negOverflow else .posOverflow, ?_⟩
        simp only [parseI64Loop, hc, if_neg hb, if_true]
    · exact ⟨.invalidDigit, by simp only [parseI64Loop, hc]; simp⟩

theorem parseI64Signed_all_digits (digits : List Char) (h1 : digits ≠ [])
    (h2 : digits.all Char.isDigit) :
    parseI64Signed false digits =
      if natOfDigits digits ≤ i64MaxNat then .ok (natOfDigits digits)
      else .error .posOverflow := by
  rcases digits with _ | ⟨c, rest⟩
  · simp at h1
  · by_cases hle : natOfDigits (c :: rest) ≤ i64MaxNat
    · rw [if_pos hle]
      simp only [parseI64Signed, i64Bound]
      rw [parseI64Loop_ok i64MaxNat false (c :: rest) 0 h2 hle]
      simp [natOfDigits]
    · rw [if_neg hle]
      simp only [parseI64Signed, i64Bound]
      rw [parseI64Loop_overflow i64MaxNat false (c :: rest) 0 h2 (by simp [i64MaxNat]) (by
        simp only [natOfDigits] at hle ⊢; omega)]
      simp

theorem parse_i64_all_digits (s : String) (h1 : s.data ≠ []) (h2 : s.data.all Char.isDigit) :
    parse_i64 s =
      if natOfDigits s.data ≤ i64MaxNat then .ok (natOfDigits s.data)
      else .error .posOverflow := by
  rcases s with ⟨l⟩
  rcases l with _ | ⟨c, rest⟩
  · simp at h1
  · rw [List.all_cons, Bool.and_eq_true] at h2
    have hc : c.isDigit = true := h2.1
    have hcm : c ≠ '-' := by
      intro h; subst h; simp at hc
    have hcp : c ≠ '+' := by
      intro h; subst h; simp at hc
    show parse_i64 (String.mk (c :: rest)) = _
    simp only [parse_i64, if_neg hcm, if_neg hcp]
    exact parseI64Signed_all_digits (c :: rest) (by simp)
      (by rw [List.all_cons, Bool.and_eq_true]; exact h2)

theorem parseI64Signed_nondigit (neg : Bool) (digits : List Char) (c : Char)
    (hc : c ∈ digits) (h1 : ¬c.isDigit) :
    ∃ k, parseI64Signed neg digits = .error k := by
  rcases digits with _ | ⟨d, rest⟩
  · simp at hc
  · obtain ⟨e, he⟩ := parseI64Loop_nondigit (i64Bound neg) neg (d :: rest) 0 ⟨c, hc, h1⟩
    refine ⟨e, ?_⟩
    simp only [parseI64Signed]
    rw [he]

theorem parse_i64_nondigit (s : String) (c : Char) (hc : c ∈ s.data)
    (h1 : ¬c.isDigit) (h2 : c ≠ '+') (h3 : c ≠ '-') :
    ∃ k, parse_i64 s = .error k := by
  rcases s with ⟨l⟩
  rcases l with _ | ⟨c0, rest⟩
  · simp at hc
  · have hc2 : c ∈ c0 :: rest := hc
    by_cases hm : c0 = '-'
    · subst hm
      have hcr : c ∈ rest := by
        rcases List.mem_cons.mp hc2 with h4 | h4
        · exact absurd h4 h3
        · exact h4
      obtain ⟨e, he⟩ := parseI64Signed_nondigit true rest c hcr h1
      refine ⟨e, ?_⟩
      show parse_i64 (String.mk ('-' :: rest)) = _
      simp only [parse_i64, if_pos rfl]
      exact he
    · by_cases hp : c0 = '+'
      · subst hp
        have hcr : c ∈ rest := by
          rcases List.mem_cons.mp hc2 with h4 | h4
          · exact absurd h4 h2
          · exact h4
        obtain ⟨e, he⟩ := parseI64Signed_nondigit false rest c hcr h1
        refine ⟨e, ?_⟩
        show parse_i64 (String.mk ('+' :: rest)) = _
        simp only [parse_i64, if_neg (by decide : ¬('+' = '-')), if_pos rfl]
        exact he
      · obtain ⟨e, he⟩ := parseI64Signed_nondigit false (c0 :: rest) c hc2 h1
        refine ⟨e, ?_⟩
        show parse_i64 (String.mk (c0 :: rest)) = _
        simp only [parse_i64, if_neg hm, if_neg hp]
        exact he

theorem rustSliceInner_quoteWrap (mid : List Char) :
    rustSliceInner (String.mk (quoteChar :: mid ++ [quoteChar])) = some (String.mk mid) := by
  have hq : quoteChar.utf8Size = 1 := by decide
  show rustSliceInnerAux (quoteChar :: (mid ++ [quoteChar])) = some (String.mk mid)
  simp only [rustSliceInnerAux, hq, if_pos rfl]
  rw [List.getLast?_concat]
  simp [hq, List.dropLast_concat]

/-!
## Claim theorems
-/

/-- C3: `parse_query "SELECT FROM users"` fails with the missing-select-item
error, `parse_query "SELECT name, age"` (no FROM) with table-not-specified,
and `parse_query "SELECT name FROM users WHERE active"` with
missing-operator. -/
theorem claim_C3_error_examples :
    parse_query "SELECT FROM users" = .err .MissingSelectItem ∧
    parse_query "SELECT name, age" = .err .TableNotSpecified ∧
    parse_query "SELECT name FROM users WHERE active" = .err .MissingOperator :=
  ⟨rfl, rfl, rfl⟩

/-- C8: `parse_query` is deterministic — two invocations on the same input
string return structurally identical results, on success and on failure. -/
theorem claim_C8_deterministic (input : String) (r1 r2 : BuildResult SelectQuery)
    (h1 : parse_query input = r1) (h2 : parse_query input = r2) : r1 = r2 := by
  rw [← h1, ← h2]

/-- Witness for C8 at a concrete input. -/
theorem claim_C8_witness :
    BuildResult.ok (SelectQuery.mk [.Column "name"] (.Simple "users") none) =
      BuildResult.ok (SelectQuery.mk [.Column "name"] (.Simple "users") none) :=
  claim_C8_deterministic "SELECT name FROM users" _ _ rfl rfl

/-- C5: the condition builder reads exactly three children positionally
(left text, operator text, right via the value builder), with
position-specific errors for a missing first, second or third child; the
spec's `price > 100` example yields the stated WHERE clause. -/
theorem claim_C5_condition_builder :
    (∀ r t, parse_condition (Pair.mk r t []) = .err .MissingLeftOperand) ∧
    (∀ r t a, parse_condition (Pair.mk r t [a]) = .err .MissingOperator) ∧
    (∀ r t a b, parse_condition (Pair.mk r t [a, b]) = .err .MissingRightOperand) ∧
    (∀ r t a b c rest v, parse_value c = .ok v →
      parse_condition (Pair.mk r t (a :: b :: c :: rest)) = .ok ⟨a.text, b.text, v⟩) ∧
    parse_query "SELECT id FROM products WHERE price > 100" =
      .ok (.mk [.Column "id"] (.Simple "products") (some ⟨"price", ">", .Number 100⟩)) := by
  refine ⟨fun r t => rfl, fun r t a => rfl, fun r t a b => rfl, ?_, rfl⟩
  intro r t a b c rest v h
  simp [parse_condition, Pair.inner, h]

/-- Witness for C5's positional-success conjunct at concrete pairs. -/
theorem claim_C5_witness :
    parse_condition (Pair.mk .condition "" [Pair.mk .identifier "price" [],
      Pair.mk .comparison_op ">" [], Pair.mk .value "" [Pair.mk .number "100" []]]) =
      .ok ⟨"price", ">", .Number 100⟩ :=
  claim_C5_condition_builder.2.2.2.1 _ _ _ _ _ _ _ rfl

/-- C4: the table builder yields `Simple` for an identifier child, invokes
the top-level builder recursively for a `select_query` child and wraps it as
`Subquery`, classifies an absent child as missing-table-name and any other
child as unexpected-rule-in-table; the spec's subquery example parses to a
`Subquery` table whose inner query has two columns and table
`Simple "users"`. -/
theorem claim_C4_table_builder :
    (∀ r t, table_builder (Pair.mk r t []) = .err .MissingTableName) ∧
    (∀ r t nm extra rest,
      table_builder (Pair.mk r t (Pair.mk .identifier nm extra :: rest)) = .ok (.Simple nm)) ∧
    (∀ r t ct ci rest q, build_query_structure (Pair.mk .select_query ct ci) = .ok q →
      table_builder (Pair.mk r t (Pair.mk .select_query ct ci :: rest)) = .ok (.Subquery q)) ∧
    (∀ r t c rest, c.rule ≠ .identifier → c.rule ≠ .select_query →
      table_builder (Pair.mk r t (c :: rest)) = .err .UnexpectedRuleInTable) ∧
    parse_query "SELECT name FROM (SELECT name, age FROM users) AS sub" =
      .ok (.mk [.Column "name"]
        (.Subquery (.mk [.Column "name", .Column "age"] (.Simple "users") none)) none) := by
  refine ⟨fun r t => rfl, fun r t nm extra rest => rfl, ?_, ?_, rfl⟩
  · intro r t ct ci rest q h
    simp [table_builder, Pair.rule, h]
  · intro r t c rest h1 h2
    rcases c with ⟨cr, ctext, cinner⟩
    cases cr <;> simp_all [table_builder, Pair.rule]

/-- Witness for C4's recursive-subquery conjunct at a concrete tree. -/
theorem claim_C4_witness :
    table_builder (Pair.mk .table ""
      [Pair.mk .select_query ""
        [Pair.mk .select_list "" [Pair.mk .select_item "" [Pair.mk .identifier "name" []]],
         Pair.mk .table "" [Pair.mk .identifier "users" []]]]) =
      .ok (.Subquery (.mk [.Column "name"] (.Simple "users") none)) :=
  claim_C4_table_builder.2.2.1 _ _ _ _ _ _ rfl

/-- C9: the value builder's boolean branch is total — every `boolean` token
yields `Boolean (text ==ᵢ "true")` and never an error; `"false"`, `"FALSE"`
and `"False"` all compare unequal to `"true"` and so yield
`Boolean false`. -/
theorem claim_C9_boolean_total :
    (∀ vr vt s brest rest,
      parse_value (Pair.mk vr vt (Pair.mk .boolean s brest :: rest)) =
        .ok (.Boolean (eqIgnoreAsciiCase s "true"))) ∧
    eqIgnoreAsciiCase "false" "true" = false ∧
    eqIgnoreAsciiCase "FALSE" "true" = false ∧
    eqIgnoreAsciiCase "False" "true" = false ∧
    eqIgnoreAsciiCase "true" "true" = true ∧
    eqIgnoreAsciiCase "TRUE" "true" = true :=
  ⟨fun vr vt s brest rest => rfl, by decide, by decide, by decide, by decide, by decide⟩

/-- C6: the value builder parses a `number` token as a signed 64-bit
integer (invalid-numeric error on overflow or non-digit content), strips
exactly the first and last character from a `string` token with no escape
processing, and maps a `boolean` token through a case-insensitive comparison
with `"true"`; the spec's `role = 'admin'` example yields right value
`String "admin"`. -/
theorem claim_C6_value_builder :
    (∀ vr vt nrest rest s, s.data ≠ [] → s.data.all Char.isDigit →
      (natOfDigits s.data ≤ i64MaxNat →
        parse_value (Pair.mk vr vt (Pair.mk .number s nrest :: rest)) =
          .ok (.Number (natOfDigits s.data))) ∧
      (i64MaxNat < natOfDigits s.data →
        parse_value (Pair.mk vr vt (Pair.mk .number s nrest :: rest)) =
          .err (.InvalidNumber .posOverflow))) ∧
    (∀ vr vt nrest rest s c, c ∈ s.data → ¬c.isDigit → c ≠ '+' → c ≠ '-' →
      ∃ k, parse_value (Pair.mk vr vt (Pair.mk .number s nrest :: rest)) =
        .err (.InvalidNumber k)) ∧
    (∀ vr vt srest rest mid,
      parse_value (Pair.mk vr vt
          (Pair.mk .string (String.mk (quoteChar :: mid ++ [quoteChar])) srest :: rest)) =
        .ok (.String (String.mk mid))) ∧
    (∀ vr vt brest rest s,
      parse_value (Pair.mk vr vt (Pair.mk .boolean s brest :: rest)) =
        .ok (.Boolean (eqIgnoreAsciiCase s "true"))) ∧
    parse_query adminQuery =
      .ok (.mk [.Column "name"] (.Simple "users") (some ⟨"role", "=", .String "admin"⟩)) := by
  refine ⟨?_, ?_, ?_, fun vr vt brest rest s => rfl, rfl⟩
  · intro vr vt nrest rest s h1 h2
    constructor
    · intro hle
      simp [parse_value, Pair.inner, Pair.rule, Pair.text,
        parse_i64_all_digits s h1 h2, hle]
    · intro hgt
      simp [parse_value, Pair.inner, Pair.rule, Pair.text,
        parse_i64_all_digits s h1 h2, Nat.not_le.mpr hgt]
  · intro vr vt nrest rest s c hc h1 h2 h3
    obtain ⟨k, hk⟩ := parse_i64_nondigit s c hc h1 h2 h3
    exact ⟨k, by simp [parse_value, Pair.inner, Pair.rule, Pair.text, hk]⟩
  · intro vr vt srest rest mid
    simp only [parse_value, Pair.inner, Pair.rule, Pair.text]
    rw [rustSliceInner_quoteWrap]

/-- Witness for C6's numeric conjunct at the token `100`. -/
theorem claim_C6_witness :
    parse_value (Pair.mk .value "" [Pair.mk .number "100" []]) =
      .ok (.Number (natOfDigits "100".data)) :=
  (claim_C6_value_builder.1 .value "" [] [] "100" (by decide) (by decide)).1 (by decide)

/-!
## Builder-wide facts: the dead error variant and panic-freedom
-/

theorem noBad_ok {α : Type} (a : α) : NoBad (BuildResult.ok a) :=
  fun _ he => nomatch he

theorem noBad_panicked {α : Type} : NoBad (BuildResult.panicked : BuildResult α) :=
  fun _ he => nomatch he

theorem noBad_err {α : Type} {e : ParseError}
    (h : e ≠ ParseError.UnexpectedRuleInSelectList) :
    NoBad (BuildResult.err e : BuildResult α) := by
  intro e2 he2
  cases he2
  exact h

theorem itemCluster_facts :
    (∀ p : Pair, parse_select_item p ≠ .panicked ∧ NoBad (parse_select_item p)) ∧
    (∀ ps : List Pair, mapSelectItems ps ≠ .panicked ∧ NoBad (mapSelectItems ps)) := by
  refine parse_select_item.mutual_induct
    (fun p => parse_select_item p ≠ .panicked ∧ NoBad (parse_select_item p))
    (fun ps => mapSelectItems ps ≠ .panicked ∧ NoBad (mapSelectItems ps))
    ?_ ?_ ?_ ?_ ?_ ?_ ?_ ?_ ?_ ?_ ?_ ?_ ?_ ?_
  · intro r t
    exact ⟨by simp [parse_select_item], by simp only [parse_select_item]; exact noBad_err (by decide)⟩
  · intro r t itext iinner tail
    exact ⟨by simp [parse_select_item], by simp only [parse_select_item]; exact noBad_ok _⟩
  · intro r t itext tail
    exact ⟨by simp [parse_select_item], by simp only [parse_select_item]; exact noBad_err (by decide)⟩
  · intro r t itext tail np args items hm ih
    exact ⟨by simp [parse_select_item, hm], by simp only [parse_select_item, hm]; exact noBad_ok _⟩
  · intro r t itext tail np args e hm ih
    refine ⟨by simp [parse_select_item, hm], ?_⟩
    simp only [parse_select_item, hm]
    exact noBad_err (ih.2 e hm)
  · intro r t itext tail np args hm ih
    exact absurd hm ih.1
  · intro r t itext iinner tail
    exact ⟨by simp [parse_select_item], by simp only [parse_select_item]; exact noBad_ok _⟩
  · intro r t ir it iinner tail h1 h2 h3
    have hred : parse_select_item (Pair.mk r t (Pair.mk ir it iinner :: tail)) =
        .err .UnexpectedRuleInSelectItem := by
      cases ir <;> simp_all [parse_select_item]
    exact ⟨by rw [hred]; simp, by rw [hred]; exact noBad_err (by decide)⟩
  · exact ⟨by simp [mapSelectItems], by simp only [mapSelectItems]; exact noBad_ok _⟩
  · intro a tail row ha items htail iha ihtail
    exact ⟨by simp [mapSelectItems, ha, htail], by
      simp only [mapSelectItems, ha, htail]; exact noBad_ok _⟩
  · intro a tail row ha e htail iha ihtail
    refine ⟨by simp [mapSelectItems, ha, htail], ?_⟩
    simp only [mapSelectItems, ha, htail]
    exact noBad_err (ihtail.2 e htail)
  · intro a tail row ha htail iha ihtail
    exact absurd htail ihtail.1
  · intro a tail e ha iha
    refine ⟨by simp [mapSelectItems, ha], ?_⟩
    simp only [mapSelectItems, ha]
    exact noBad_err (iha.2 e ha)
  · intro a tail ha iha
    exact absurd ha iha.1

theorem selectedRowsLoop_facts (ps : List Pair) :
    selectedRowsLoop ps ≠ .panicked ∧ NoBad (selectedRowsLoop ps) ∧
      ∀ items, selectedRowsLoop ps = .ok items → items.length = ps.length := by
  induction ps using selectedRowsLoop.induct with
  | case1 =>
    refine ⟨by simp [selectedRowsLoop], by simp only [selectedRowsLoop]; exact noBad_ok _, ?_⟩
    intro items h
    simp only [selectedRowsLoop] at h
    cases h
    rfl
  | case2 c tail hr row hrow items htail ih =>
    refine ⟨by simp [selectedRowsLoop, hr, hrow, htail], by
      simp only [selectedRowsLoop, hr, hrow, htail]; exact noBad_ok _, ?_⟩
    intro items2 h2
    simp only [selectedRowsLoop, hr, hrow, htail] at h2
    cases h2
    simp [ih.2.2 items htail]
  | case3 c tail hr row hrow e htail ih =>
    refine ⟨by simp [selectedRowsLoop, hr, hrow, htail], ?_, ?_⟩
    · simp only [selectedRowsLoop, hr, hrow, htail]
      exact noBad_err (ih.2.1 e htail)
    · intro items2 h2
      simp only [selectedRowsLoop, hr, hrow, htail] at h2
      cases h2
  | case4 c tail hr row hrow htail ih =>
    exact absurd htail ih.1
  | case5 c tail hr e hrow =>
    refine ⟨by simp [selectedRowsLoop, hr, hrow], ?_, ?_⟩
    · simp only [selectedRowsLoop, hr, hrow]
      exact noBad_err ((itemCluster_facts.1 c).2 e hrow)
    · intro items2 h2
      simp only [selectedRowsLoop, hr, hrow] at h2
      cases h2
  | case6 c tail hr hrow =>
    exact absurd hrow (itemCluster_facts.1 c).1
  | case7 c tail hr =>
    have hred : selectedRowsLoop (c :: tail) = .err .UnexpectedRuleInSelectListOther := by
      rcases c with ⟨cr, ct, ci⟩
      simp only [Pair.rule] at hr
      cases cr <;> simp_all [selectedRowsLoop, Pair.rule]
    refine ⟨by rw [hred]; simp, by rw [hred]; exact noBad_err (by decide), ?_⟩
    intro items2 h2
    rw [hred] at h2
    cases h2

theorem parse_value_noBad (p : Pair) : NoBad (parse_value p) := by
  intro e he
  rcases p with ⟨r, t, inner⟩
  rcases inner with _ | ⟨⟨ir, it, iin⟩, rest⟩
  · simp only [parse_value, Pair.inner] at he
    cases he
    decide
  · cases ir <;> simp only [parse_value, Pair.inner, Pair.rule, Pair.text] at he
    case number =>
      split at he
      · cases he
      · cases he
        simp
    case string => split at he <;> cases he
    case boolean => cases he
    all_goals (cases he; decide)

theorem parse_value_noPanic (p : Pair) (hwf : wfValueNode p = true) :
    parse_value p ≠ .panicked := by
  intro hpan
  rcases p with ⟨r, t, inner⟩
  rcases inner with _ | ⟨⟨ir, it, iin⟩, rest⟩
  · simp [parse_value, Pair.inner] at hpan
  · cases ir <;> simp only [parse_value, Pair.inner, Pair.rule, Pair.text] at hpan
    case number => split at hpan <;> cases hpan
    case string =>
      simp only [wfValueNode, wfToken] at hwf
      split at hpan
      · cases hpan
      · simp_all
    all_goals cases hpan

theorem parse_condition_noBad (p : Pair) : NoBad (parse_condition p) := by
  intro e he
  rcases p with ⟨r, t, inner⟩
  rcases inner with _ | ⟨a, _ | ⟨b, _ | ⟨c, rest⟩⟩⟩
  · simp only [parse_condition, Pair.inner] at he
    cases he
    decide
  · simp only [parse_condition, Pair.inner] at he
    cases he
    decide
  · simp only [parse_condition, Pair.inner] at he
    cases he
    decide
  · simp only [parse_condition, Pair.inner] at he
    split at he
    · cases he
    · cases he
      exact parse_value_noBad c _ (by assumption)
    · cases he

theorem parse_condition_noPanic (p : Pair) (hwf : wfCondChildren p.inner = true) :
    parse_condition p ≠ .panicked := by
  intro hpan
  rcases p with ⟨r, t, inner⟩
  rcases inner with _ | ⟨a, _ | ⟨b, _ | ⟨c, rest⟩⟩⟩
  · simp [parse_condition, Pair.inner] at hpan
  · simp [parse_condition, Pair.inner] at hpan
  · simp [parse_condition, Pair.inner] at hpan
  · simp only [Pair.inner, wfCondChildren] at hwf
    have hv := parse_value_noPanic c hwf
    simp only [parse_condition, Pair.inner] at hpan
    split at hpan <;> simp_all

theorem whereLoop_facts (ps : List Pair) :
    NoBad (whereLoop ps) ∧ (wfWhereInner ps = true → whereLoop ps ≠ .panicked) := by
  induction ps using whereLoop.induct with
  | case1 =>
    exact ⟨by simp only [whereLoop]; exact noBad_err (by decide), by simp [whereLoop]⟩
  | case2 c tail hr ih =>
    refine ⟨by simp only [whereLoop, hr]; exact ih.1, ?_⟩
    intro hwf
    simp only [wfWhereInner, Bool.and_eq_true] at hwf
    simp only [whereLoop, hr]
    exact ih.2 hwf.2
  | case3 c tail hr =>
    refine ⟨by simp only [whereLoop, hr]; exact parse_condition_noBad c, ?_⟩
    intro hwf
    simp only [wfWhereInner, Bool.and_eq_true] at hwf
    have hc := hwf.1
    rcases c with ⟨cr, ct, ci⟩
    simp only [Pair.rule] at hr
    subst hr
    simp only [wfCondNode] at hc
    simp only [whereLoop, Pair.rule]
    exact parse_condition_noPanic _ hc
  | case4 c tail h1 h2 ih =>
    have hred : whereLoop (c :: tail) = whereLoop tail := by
      rcases c with ⟨cr, ct, ci⟩
      simp only [Pair.rule] at h1 h2
      cases cr <;> simp_all [whereLoop, Pair.rule]
    refine ⟨by rw [hred]; exact ih.1, ?_⟩
    intro hwf
    simp only [wfWhereInner, Bool.and_eq_true] at hwf
    rw [hred]
    exact ih.2 hwf.2

theorem buildCluster_noBad :
    (∀ p : Pair, NoBad (build_query_structure p)) ∧
    (∀ (ps : List Pair) (cols : List SelectItem) (tbl : Option Table) (wc : Option Condition),
      NoBad (buildFields ps cols tbl wc)) ∧
    (∀ p : Pair, NoBad (table_builder p)) := by
  refine build_query_structure.mutual_induct
    (fun p => NoBad (build_query_structure p))
    (fun ps cols tbl wc => NoBad (buildFields ps cols tbl wc))
    (fun p => NoBad (table_builder p))
    ?_ ?_ ?_ ?_ ?_ ?_ ?_ ?_ ?_ ?_ ?_ ?_ ?_ ?_ ?_ ?_ ?_ ?_ ?_
  · intro r t inner ih
    simp only [build_query_structure]
    exact ih
  · intro r t
    simp only [table_builder]
    exact noBad_err (by decide)
  · intro r t fc tail hfc
    simp only [table_builder, hfc]
    exact noBad_ok _
  · intro r t fc tail hfc sub hsub ih
    simp only [table_builder, hfc, hsub]
    exact noBad_ok _
  · intro r t fc tail hfc e hsub ih
    simp only [table_builder, hfc, hsub]
    exact noBad_err (ih e hsub)
  · intro r t fc tail hfc hsub ih
    simp only [table_builder, hfc, hsub]
    exact noBad_panicked
  · intro r t fc tail h1 h2
    have hred : table_builder (Pair.mk r t (fc :: tail)) = .err .UnexpectedRuleInTable := by
      rcases fc with ⟨fr, ft, fi⟩
      simp only [Pair.rule] at h1 h2
      cases fr <;> simp_all [table_builder, Pair.rule]
    rw [hred]
    exact noBad_err (by decide)
  · intro cols wc t
    simp only [buildFields]
    exact noBad_ok _
  · intro cols wc
    simp only [buildFields]
    exact noBad_err (by decide)
  · intro c rest cols tbl wc hc items hitems ih
    simp only [buildFields, hc, hitems]
    exact ih
  · intro c rest cols tbl wc hc e herr
    simp only [buildFields, hc, herr]
    rcases c with ⟨cr, ct, ci⟩
    simp only [selected_rows_builder] at herr
    exact noBad_err ((selectedRowsLoop_facts ci).2.1 e herr)
  · intro c rest cols tbl wc hc hpan
    simp only [buildFields, hc, hpan]
    exact noBad_panicked
  · intro c rest cols tbl wc hc t htb ih3 ih
    simp only [buildFields, hc, htb]
    exact ih
  · intro c rest cols tbl wc hc e htb ih3
    simp only [buildFields, hc, htb]
    exact noBad_err (ih3 e htb)
  · intro c rest cols tbl wc hc htb ih3
    simp only [buildFields, hc, htb]
    exact noBad_panicked
  · intro c rest cols tbl wc hc cond hwb ih
    simp only [buildFields, hc, hwb]
    exact ih
  · intro c rest cols tbl wc hc e hwb
    simp only [buildFields, hc, hwb]
    exact noBad_err ((whereLoop_facts c.inner).1 e hwb)
  · intro c rest cols tbl wc hc hwb
    simp only [buildFields, hc, hwb]
    exact noBad_panicked
  · intro c rest cols tbl wc h1 h2 h3 ih
    have hred : buildFields (c :: rest) cols tbl wc = buildFields rest cols tbl wc := by
      rcases c with ⟨cr, ct, ci⟩
      simp only [Pair.rule] at h1 h2 h3
      cases cr <;> simp_all [buildFields, Pair.rule]
    rw [hred]
    exact ih

theorem buildCluster_noPanic :
    (∀ p : Pair, wfQuery p = true → build_query_structure p ≠ .panicked) ∧
    (∀ (ps : List Pair) (cols : List SelectItem) (tbl : Option Table) (wc : Option Condition),
      wfChildren ps = true → buildFields ps cols tbl wc ≠ .panicked) ∧
    (∀ p : Pair, wfTableInner p.inner = true → table_builder p ≠ .panicked) := by
  refine build_query_structure.mutual_induct
    (fun p => wfQuery p = true → build_query_structure p ≠ .panicked)
    (fun ps cols tbl wc => wfChildren ps = true → buildFields ps cols tbl wc ≠ .panicked)
    (fun p => wfTableInner p.inner = true → table_builder p ≠ .panicked)
    ?_ ?_ ?_ ?_ ?_ ?_ ?_ ?_ ?_ ?_ ?_ ?_ ?_ ?_ ?_ ?_ ?_ ?_ ?_
  · intro r t inner ih hwf
    simp only [wfQuery, Bool.and_eq_true] at hwf
    simp only [build_query_structure]
    exact ih hwf.2
  · intro r t hwf
    simp [table_builder]
  · intro r t fc tail hfc hwf
    simp [table_builder, hfc]
  · intro r t fc tail hfc sub hsub ih hwf
    simp [table_builder, hfc, hsub]
  · intro r t fc tail hfc e hsub ih hwf
    simp [table_builder, hfc, hsub]
  · intro r t fc tail hfc hsub ih hwf
    simp only [Pair.inner, wfTableInner, hfc, Bool.and_eq_true] at hwf
    exact absurd hsub (ih hwf.1)
  · intro r t fc tail h1 h2 hwf
    have hred : table_builder (Pair.mk r t (fc :: tail)) = .err .UnexpectedRuleInTable := by
      rcases fc with ⟨fr, ft, fi⟩
      simp only [Pair.rule] at h1 h2
      cases fr <;> simp_all [table_builder, Pair.rule]
    rw [hred]
    simp
  · intro cols wc t hwf
    simp [buildFields]
  · intro cols wc hwf
    simp [buildFields]
  · intro c rest cols tbl wc hc items hitems ih hwf
    simp only [wfChildren, Bool.and_eq_true] at hwf
    simp only [buildFields, hc, hitems]
    exact ih hwf.2
  · intro c rest cols tbl wc hc e herr hwf
    simp [buildFields, hc, herr]
  · intro c rest cols tbl wc hc hpan hwf
    rcases c with ⟨cr, ct, ci⟩
    simp only [selected_rows_builder] at hpan
    exact absurd hpan (selectedRowsLoop_facts ci).1
  · intro c rest cols tbl wc hc t htb ih3 ih hwf
    simp only [wfChildren, Bool.and_eq_true] at hwf
    simp only [buildFields, hc, htb]
    exact ih hwf.2
  · intro c rest cols tbl wc hc e htb ih3 hwf
    simp [buildFields, hc, htb]
  · intro c rest cols tbl wc hc htb ih3 hwf
    simp only [wfChildren, Bool.and_eq_true] at hwf
    have hwfc := hwf.1
    rcases c with ⟨cr, ct, ci⟩
    simp only [Pair.rule] at hc
    subst hc
    simp only [wfChildNode] at hwfc
    exact absurd htb (ih3 hwfc)
  · intro c rest cols tbl wc hc cond hwb ih hwf
    simp only [wfChildren, Bool.and_eq_true] at hwf
    simp only [buildFields, hc, hwb]
    exact ih hwf.2
  · intro c rest cols tbl wc hc e hwb hwf
    simp [buildFields, hc, hwb]
  · intro c rest cols tbl wc hc hwb hwf
    simp only [wfChildren, Bool.and_eq_true] at hwf
    have hwfc := hwf.1
    rcases c with ⟨cr, ct, ci⟩
    simp only [Pair.rule] at hc
    subst hc
    simp only [wfChildNode] at hwfc
    simp only [where_builder, Pair.inner] at hwb
    exact absurd hwb ((whereLoop_facts ci).2 hwfc)
  · intro c rest cols tbl wc h1 h2 h3 ih hwf
    simp only [wfChildren, Bool.and_eq_true] at hwf
    have hred : buildFields (c :: rest) cols tbl wc = buildFields rest cols tbl wc := by
      rcases c with ⟨cr, ct, ci⟩
      simp only [Pair.rule] at h1 h2 h3
      cases cr <;> simp_all [buildFields, Pair.rule]
    rw [hred]
    exact ih hwf.2

theorem parse_query_noBad (s : String) (e : ParseError)
    (he : parse_query s = .err e) : e ≠ .UnexpectedRuleInSelectList := by
  unfold parse_query at he
  split at he
  · cases he
    decide
  · exact buildCluster_noBad.1 _ e he

/-!
## Well-formedness of the recognizer's output
-/

theorem stringToken_shape (l : List Char) (t : String) (r : List Char)
    (h : stringToken l = some (t, r)) :
    ∃ mid, t = String.mk (quoteChar :: mid ++ [quoteChar]) := by
  rcases l with _ | ⟨c, cs⟩
  · simp [stringToken] at h
  · simp only [stringToken] at h
    by_cases hc : c = quoteChar
    · simp only [if_pos hc] at h
      cases hz : cs.dropWhile (fun d => d ≠ quoteChar) with
      | nil => rw [hz] at h; simp at h
      | cons d rest =>
        rw [hz] at h
        simp only [Option.some.injEq, Prod.mk.injEq] at h
        exact ⟨_, h.1.symm⟩
    · simp [if_neg hc] at h

theorem parseValueNode_wf (l : List Char) (p : Pair) (r : List Char)
    (h : parseValueNode l = some (p, r)) : wfValueNode p = true := by
  simp only [parseValueNode] at h
  cases hn : numberToken (skipWs l) with
  | some v =>
    obtain ⟨t, r2⟩ := v
    simp only [hn, Option.some.injEq, Prod.mk.injEq] at h
    rw [← h.1]
    rfl
  | none =>
    simp only [hn] at h
    cases hs : stringToken (skipWs l) with
    | some v =>
      obtain ⟨t, r2⟩ := v
      obtain ⟨mid, rfl⟩ := stringToken_shape _ _ _ hs
      simp only [hs, Option.some.injEq, Prod.mk.injEq] at h
      rw [← h.1]
      simp only [wfValueNode, wfToken, rustSliceInner_quoteWrap]
      rfl
    | none =>
      simp only [hs] at h
      cases hb : booleanToken (skipWs l) with
      | some v =>
        obtain ⟨t, r2⟩ := v
        simp only [hb, Option.some.injEq, Prod.mk.injEq] at h
        rw [← h.1]
        rfl
      | none => simp [hb] at h

theorem parseConditionNode_wf (l : List Char) (p : Pair) (r : List Char)
    (h : parseConditionNode l = some (p, r)) : wfCondNode p = true := by
  simp only [parseConditionNode] at h
  cases hid : identToken (skipWs l) with
  | none => simp [hid] at h
  | some v =>
    obtain ⟨lhs, r1⟩ := v
    simp only [hid] at h
    cases hop : comparisonOpToken (skipWs r1) with
    | none =>
      simp only [hop, Option.some.injEq, Prod.mk.injEq] at h
      rw [← h.1]
      rfl
    | some w =>
      obtain ⟨op, r2⟩ := w
      simp only [hop] at h
      cases hv : parseValueNode r2 with
      | none =>
        simp only [hv, Option.some.injEq, Prod.mk.injEq] at h
        rw [← h.1]
        rfl
      | some u =>
        obtain ⟨vp, r3⟩ := u
        simp only [hv, Option.some.injEq, Prod.mk.injEq] at h
        rw [← h.1]
        simp only [wfCondNode, wfCondChildren]
        exact parseValueNode_wf _ _ _ hv

theorem parseWhereClauseNode_wf (l : List Char) (p : Pair) (r : List Char)
    (h : parseWhereClauseNode l = some (p, r)) : wfChildNode p = true := by
  simp only [parseWhereClauseNode] at h
  cases hkw : matchCI "where".data (skipWs l) with
  | none => simp [hkw] at h
  | some r1 =>
    simp only [hkw] at h
    cases hcp : parseConditionNode r1 with
    | none =>
      simp only [hcp, Option.some.injEq, Prod.mk.injEq] at h
      rw [← h.1]
      rfl
    | some u =>
      obtain ⟨cp, r2⟩ := u
      simp only [hcp, Option.some.injEq, Prod.mk.injEq] at h
      rw [← h.1]
      have hwf := parseConditionNode_wf _ _ _ hcp
      have hkwnode : wfCondNode (Pair.mk .WHERE "" []) = true := rfl
      simp [wfChildNode, wfWhereInner, hwf, hkwnode]

theorem parseSelectList_shape (fuel : Nat) (l : List Char) (p : Pair) (r : List Char)
    (h : parseSelectList fuel l = some (p, r)) :
    ∃ i items, p = Pair.mk .select_list "" (i :: items) := by
  match fuel with
  | 0 => simp [parseSelectList] at h
  | fuel + 1 =>
    simp only [parseSelectList] at h
    cases hx : parseSelectItem fuel l with
    | none => simp [hx] at h
    | some v =>
      obtain ⟨item, r1⟩ := v
      simp only [hx] at h
      cases hy : parseListRest fuel r1 with
      | none => simp [hy] at h
      | some w =>
        obtain ⟨items, r2⟩ := w
        simp only [hy, Option.some.injEq, Prod.mk.injEq] at h
        exact ⟨item, items, h.1.symm⟩

theorem parseSelectQuery_shape (fuel : Nat) (l : List Char) (p : Pair) (r : List Char)
    (h : parseSelectQuery fuel l = some (p, r)) :
    ∃ ch, p = Pair.mk .select_query "" ch := by
  match fuel with
  | 0 => simp [parseSelectQuery] at h
  | fuel + 1 =>
    simp only [parseSelectQuery] at h
    cases hkw : matchCI "select".data (skipWs l) with
    | none => simp [hkw] at h
    | some r1 =>
      simp only [hkw] at h
      cases hls : parseSelectList fuel r1 with
      | none => simp [hls] at h
      | some v =>
        obtain ⟨slp, r2⟩ := v
        simp only [hls] at h
        rcases hgr : (match matchCI "from".data (skipWs r2) with
          | none => ([slp], r2)
          | some rf =>
            match parseTable fuel rf with
            | none => ([slp], r2)
            | some (tp, rt) => ([slp, tp], rt)) with ⟨children, r3⟩
        rw [hgr] at h
        cases hw : parseWhereClauseNode r3 with
        | none =>
          simp only [hw, Option.some.injEq, Prod.mk.injEq] at h
          exact ⟨children, h.1.symm⟩
        | some u =>
          obtain ⟨wp, rw⟩ := u
          simp only [hw, Option.some.injEq, Prod.mk.injEq] at h
          exact ⟨children ++ [wp], h.1.symm⟩

theorem parser_wf (fuel : Nat) :
    (∀ l p r, parseSelectQuery fuel l = some (p, r) → wfQuery p = true) ∧
    (∀ l p r, parseTable fuel l = some (p, r) → wfChildNode p = true) := by
  induction fuel with
  | zero =>
    constructor <;> intro l p r h
    · simp [parseSelectQuery] at h
    · simp [parseTable] at h
  | succ fuel ih =>
    constructor
    · intro l p r h
      simp only [parseSelectQuery] at h
      cases hkw : matchCI "select".data (skipWs l) with
      | none => simp [hkw] at h
      | some r1 =>
        simp only [hkw] at h
        cases hls : parseSelectList fuel r1 with
        | none => simp [hls] at h
        | some v =>
          obtain ⟨slp, r2⟩ := v
          obtain ⟨i, items, rfl⟩ := parseSelectList_shape fuel _ _ _ hls
          simp only [hls] at h
          have hslp : wfChildNode (Pair.mk .select_list "" (i :: items)) = true := rfl
          cases hfr : matchCI "from".data (skipWs r2) with
          | none =>
            simp only [hfr] at h
            cases hw : parseWhereClauseNode r2 with
            | none =>
              simp only [hw, Option.some.injEq, Prod.mk.injEq] at h
              rw [← h.1]
              simp [wfQuery, wfChildren, containsSelectList, Pair.rule, hslp]
            | some u =>
              obtain ⟨wp, rw⟩ := u
              have hwp := parseWhereClauseNode_wf _ _ _ hw
              simp only [hw, Option.some.injEq, Prod.mk.injEq] at h
              rw [← h.1]
              simp [wfQuery, wfChildren, containsSelectList, Pair.rule, hslp, hwp]
          | some rf =>
            simp only [hfr] at h
            cases htb : parseTable fuel rf with
            | none =>
              simp only [htb] at h
              cases hw : parseWhereClauseNode r2 with
              | none =>
                simp only [hw, Option.some.injEq, Prod.mk.injEq] at h
                rw [← h.1]
                simp [wfQuery, wfChildren, containsSelectList, Pair.rule, hslp]
              | some u =>
                obtain ⟨wp, rw⟩ := u
                have hwp := parseWhereClauseNode_wf _ _ _ hw
                simp only [hw, Option.some.injEq, Prod.mk.injEq] at h
                rw [← h.1]
                simp [wfQuery, wfChildren, containsSelectList, Pair.rule, hslp, hwp]
            | some w =>
              obtain ⟨tp, rt⟩ := w
              have htp := ih.2 _ _ _ htb
              simp only [htb] at h
              cases hw : parseWhereClauseNode rt with
              | none =>
                simp only [hw, Option.some.injEq, Prod.mk.injEq] at h
                rw [← h.1]
                simp [wfQuery, wfChildren, containsSelectList, Pair.rule, hslp, htp]
              | some u =>
                obtain ⟨wp, rw⟩ := u
                have hwp := parseWhereClauseNode_wf _ _ _ hw
                simp only [hw, Option.some.injEq, Prod.mk.injEq] at h
                rw [← h.1]
                simp [wfQuery, wfChildren, containsSelectList, Pair.rule, hslp, htp, hwp]
    · intro l p r h
      simp only [parseTable] at h
      cases hid : identToken (skipWs l) with
      | some v =>
        obtain ⟨nm, r0⟩ := v
        simp only [hid, Option.some.injEq, Prod.mk.injEq] at h
        rw [← h.1]
        rfl
      | none =>
        simp only [hid] at h
        split at h
        · rename_i r1 hsk
          cases hq : parseSelectQuery fuel r1 with
          | none => simp [hq] at h
          | some w =>
            obtain ⟨qp, r2⟩ := w
            simp only [hq] at h
            split at h
            · rename_i r3 hsk2
              simp only [Option.some.injEq, Prod.mk.injEq] at h
              obtain ⟨ch, rfl⟩ := parseSelectQuery_shape fuel _ _ _ hq
              rw [← h.1]
              simp only [wfChildNode, wfTableInner, Pair.rule, Bool.and_eq_true]
              exact ⟨ih.1 _ _ _ hq, by simp [wfTableInner]⟩
            · simp at h
        · simp at h

theorem recognize_wf (input : String) (p : Pair) (h : recognize input = some p) :
    wfQuery p = true := by
  unfold recognize at h
  split at h
  · simp at h
  · rename_i pr hpr
    cases h
    exact (parser_wf (fuelFor input.data)).1 _ _ _ hpr

/-- C7: every error `parse_query` can return belongs to the spec's sixteen
closed kinds — the dead 17th variant `UnexpectedRuleInSelectList` is never
produced — and on the sixteen live variants two failures are of different
taxonomy kinds exactly when their enum variants differ, so callers can
branch programmatically on the variant. -/
theorem claim_C7_error_taxonomy :
    (∀ s e, parse_query s = .err e → e ≠ .UnexpectedRuleInSelectList) ∧
    (∀ e1 e2 : ParseError, e1 ≠ .UnexpectedRuleInSelectList →
      e2 ≠ .UnexpectedRuleInSelectList →
      (classify e1 = classify e2 ↔ variantTag e1 = variantTag e2)) := by
  constructor
  · exact parse_query_noBad
  · intro e1 e2 h1 h2
    constructor
    · intro hcls
      cases e1 <;> cases e2 <;> simp_all [classify, variantTag]
    · intro htag
      cases e1 <;> cases e2 <;> simp_all [classify, variantTag]

/-- Witness for C7 at the concrete failing input `SELECT name, age` and a
concrete pair of error variants. -/
theorem claim_C7_witness :
    ParseError.TableNotSpecified ≠ ParseError.UnexpectedRuleInSelectList ∧
    (classify .TableNotSpecified = classify .MissingSelectItem ↔
      variantTag .TableNotSpecified = variantTag .MissingSelectItem) :=
  ⟨claim_C7_error_taxonomy.1 "SELECT name, age" .TableNotSpecified rfl,
   claim_C7_error_taxonomy.2 .TableNotSpecified .MissingSelectItem (by decide) (by decide)⟩

/-- C10: `parse_query` never panics — in particular the string branch's byte
slice `&s[1..s.len() - 1]` is always in bounds on recognizer-produced string
tokens — and on any single-byte-quote-delimited token text the slice returns
exactly the interior. -/
theorem claim_C10_no_panic :
    (∀ input, parse_query input ≠ .panicked) ∧
    (∀ mid, rustSliceInner (String.mk (quoteChar :: mid ++ [quoteChar])) =
      some (String.mk mid)) := by
  constructor
  · intro input
    simp only [parse_query]
    cases hx : recognize input with
    | none => simp
    | some p => exact buildCluster_noPanic.1 p (recognize_wf input p hx)
  · exact rustSliceInner_quoteWrap

/-!
## The recursive invariants of successfully built queries (C2)
-/

theorem buildCluster_inv :
    (∀ p : Pair, wfQuery p = true → ∀ q, build_query_structure p = .ok q → QInv p q) ∧
    (∀ (ps : List Pair) (cols : List SelectItem) (tbl : Option Table) (wc : Option Condition),
      wfChildren ps = true → ∀ q, buildFields ps cols tbl wc = .ok q →
        ((containsSelectList ps = true ∨ cols ≠ []) → q.columns ≠ []) ∧
        (q.whereClause.isSome = true ↔ (wc.isSome = true ∨ hasWhereChild ps = true)) ∧
        (∀ q', q.table = .Subquery q' →
          (∃ c ∈ ps, c.rule = .table ∧ ∃ sq rest2, c.inner = sq :: rest2 ∧
            sq.rule = .select_query ∧ QInv sq q') ∨ tbl = some (.Subquery q'))) ∧
    (∀ p : Pair, wfTableInner p.inner = true → ∀ q', table_builder p = .ok (.Subquery q') →
      ∃ sq rest2, p.inner = sq :: rest2 ∧ sq.rule = .select_query ∧ QInv sq q') := by
  refine build_query_structure.mutual_induct
    (fun p => wfQuery p = true → ∀ q, build_query_structure p = .ok q → QInv p q)
    (fun ps cols tbl wc => wfChildren ps = true → ∀ q, buildFields ps cols tbl wc = .ok q →
      ((containsSelectList ps = true ∨ cols ≠ []) → q.columns ≠ []) ∧
      (q.whereClause.isSome = true ↔ (wc.isSome = true ∨ hasWhereChild ps = true)) ∧
      (∀ q', q.table = .Subquery q' →
        (∃ c ∈ ps, c.rule = .table ∧ ∃ sq rest2, c.inner = sq :: rest2 ∧
          sq.rule = .select_query ∧ QInv sq q') ∨ tbl = some (.Subquery q')))
    (fun p => wfTableInner p.inner = true → ∀ q', table_builder p = .ok (.Subquery q') →
      ∃ sq rest2, p.inner = sq :: rest2 ∧ sq.rule = .select_query ∧ QInv sq q')
    ?_ ?_ ?_ ?_ ?_ ?_ ?_ ?_ ?_ ?_ ?_ ?_ ?_ ?_ ?_ ?_ ?_ ?_ ?_
  · intro r t inner ih hwf q hq
    simp only [wfQuery, Bool.and_eq_true] at hwf
    simp only [build_query_structure] at hq
    obtain ⟨ihc, ihw, iht⟩ := ih hwf.2 q hq
    rcases q with ⟨qc, qt, qw⟩
    simp only [SelectQuery.columns, SelectQuery.whereClause, SelectQuery.table] at ihc ihw iht
    simp only [QInv, Pair.inner]
    refine ⟨ihc (Or.inl hwf.1), ?_, ?_⟩
    · simpa using ihw
    · cases qt with
      | Simple nm => simp [TInv]
      | Subquery q' =>
        simp only [TInv, Pair.inner]
        rcases iht q' rfl with hleft | hright
        · exact hleft
        · cases hright
  · intro r t hwf q' hq
    simp [table_builder] at hq
  · intro r t fc tail hfc hwf q' hq
    simp [table_builder, hfc] at hq
  · intro r t fc tail hfc sub hsub ih hwf q' hq
    simp only [table_builder, hfc, hsub, BuildResult.ok.injEq, Table.Subquery.injEq] at hq
    subst hq
    simp only [Pair.inner, wfTableInner, hfc, Bool.and_eq_true] at hwf
    exact ⟨fc, tail, rfl, hfc, ih hwf.1 sub hsub⟩
  · intro r t fc tail hfc e hsub ih hwf q' hq
    simp [table_builder, hfc, hsub] at hq
  · intro r t fc tail hfc hsub ih hwf q' hq
    simp [table_builder, hfc, hsub] at hq
  · intro r t fc tail h1 h2 hwf q' hq
    have hred : table_builder (Pair.mk r t (fc :: tail)) = .err .UnexpectedRuleInTable := by
      rcases fc with ⟨fr, ft, fi⟩
      simp only [Pair.rule] at h1 h2
      cases fr <;> simp_all [table_builder, Pair.rule]
    rw [hred] at hq
    cases hq
  · intro cols wc t hwf q hq
    simp only [buildFields, BuildResult.ok.injEq] at hq
    subst hq
    simp only [SelectQuery.columns, SelectQuery.whereClause, SelectQuery.table]
    refine ⟨?_, by simp [hasWhereChild], ?_⟩
    · intro hd
      rcases hd with hba | hne
      · simp [containsSelectList] at hba
      · exact hne
    · intro q' hq'
      exact Or.inr (by rw [hq'])
  · intro cols wc hwf q hq
    simp [buildFields] at hq
  · intro c rest cols tbl wc hc items hitems ih hwf q hq
    simp only [wfChildren, Bool.and_eq_true] at hwf
    simp only [buildFields, hc, hitems] at hq
    obtain ⟨ihc, ihw, iht⟩ := ih hwf.2 q hq
    have hitemsne : items ≠ [] := by
      rcases c with ⟨cr, ct, ci⟩
      simp only [Pair.rule] at hc
      subst hc
      have hlen := (selectedRowsLoop_facts ci).2.2 items
        (by simpa [selected_rows_builder] using hitems)
      have hciempty := hwf.1
      simp only [wfChildNode, Bool.not_eq_true'] at hciempty
      intro hcontra
      subst hcontra
      simp only [List.length_nil] at hlen
      rcases ci with _ | ⟨x, xs⟩
      · simp at hciempty
      · simp at hlen
    refine ⟨fun _ => ihc (Or.inr hitemsne), ?_, ?_⟩
    · have hcw : decide (c.rule = Rule.where_clause) = false := by simp [hc]
      simpa [hasWhereChild, hcw] using ihw
    · intro q' hq'
      rcases iht q' hq' with ⟨c2, hmem, hrest⟩ | hright
      · exact Or.inl ⟨c2, List.mem_cons_of_mem _ hmem, hrest⟩
      · exact Or.inr hright
  · intro c rest cols tbl wc hc e herr hwf q hq
    simp [buildFields, hc, herr] at hq
  · intro c rest cols tbl wc hc hpan hwf q hq
    simp [buildFields, hc, hpan] at hq
  · intro c rest cols tbl wc hc t htb ih3 ih hwf q hq
    simp only [wfChildren, Bool.and_eq_true] at hwf
    simp only [buildFields, hc, htb] at hq
    obtain ⟨ihc, ihw, iht⟩ := ih hwf.2 q hq
    have hcs : decide (c.rule = Rule.select_list) = false := by simp [hc]
    have hcw : decide (c.rule = Rule.where_clause) = false := by simp [hc]
    refine ⟨?_, by simpa [hasWhereChild, hcw] using ihw, ?_⟩
    · intro hd
      rcases hd with hba | hne
      · simp only [containsSelectList, hcs, Bool.false_or] at hba
        exact ihc (Or.inl hba)
      · exact ihc (Or.inr hne)
    · intro q' hq'
      rcases iht q' hq' with ⟨c2, hmem, hrest⟩ | hright
      · exact Or.inl ⟨c2, List.mem_cons_of_mem _ hmem, hrest⟩
      · simp only [Option.some.injEq] at hright
        subst hright
        have hwfti : wfTableInner c.inner = true := by
          rcases c with ⟨cr, ct, ci⟩
          simp only [Pair.rule] at hc
          subst hc
          simpa only [wfChildNode] using hwf.1
        obtain ⟨sq, rest2, hin, hr2, hqi⟩ := ih3 hwfti q' htb
        exact Or.inl ⟨c, List.mem_cons_self _ _, hc, sq, rest2, hin, hr2, hqi⟩
  · intro c rest cols tbl wc hc e htb ih3 hwf q hq
    simp [buildFields, hc, htb] at hq
  · intro c rest cols tbl wc hc htb ih3 hwf q hq
    simp [buildFields, hc, htb] at hq
  · intro c rest cols tbl wc hc cond hwb ih hwf q hq
    simp only [wfChildren, Bool.and_eq_true] at hwf
    simp only [buildFields, hc, hwb] at hq
    obtain ⟨ihc, ihw, iht⟩ := ih hwf.2 q hq
    have hcs : decide (c.rule = Rule.select_list) = false := by simp [hc]
    have hcw : decide (c.rule = Rule.where_clause) = true := by simp [hc]
    refine ⟨?_, ?_, ?_⟩
    · intro hd
      rcases hd with hba | hne
      · simp only [containsSelectList, hcs, Bool.false_or] at hba
        exact ihc (Or.inl hba)
      · exact ihc (Or.inr hne)
    · have hqsome : q.whereClause.isSome = true := ihw.mpr (Or.inl (by simp))
      simp [hasWhereChild, hcw, hqsome]
    · intro q' hq'
      rcases iht q' hq' with ⟨c2, hmem, hrest⟩ | hright
      · exact Or.inl ⟨c2, List.mem_cons_of_mem _ hmem, hrest⟩
      · exact Or.inr hright
  · intro c rest cols tbl wc hc e hwb hwf q hq
    simp [buildFields, hc, hwb] at hq
  · intro c rest cols tbl wc hc hwb hwf q hq
    simp [buildFields, hc, hwb] at hq
  · intro c rest cols tbl wc h1 h2 h3 ih hwf q hq
    simp only [wfChildren, Bool.and_eq_true] at hwf
    have hred : buildFields (c :: rest) cols tbl wc = buildFields rest cols tbl wc := by
      rcases c with ⟨cr, ct, ci⟩
      simp only [Pair.rule] at h1 h2 h3
      cases cr <;> simp_all [buildFields, Pair.rule]
    rw [hred] at hq
    obtain ⟨ihc, ihw, iht⟩ := ih hwf.2 q hq
    have hcs : decide (c.rule = Rule.select_list) = false := by
      simp only [decide_eq_false_iff_not]
      exact h1
    have hcw : decide (c.rule = Rule.where_clause) = false := by
      simp only [decide_eq_false_iff_not]
      exact h3
    refine ⟨?_, by simpa [hasWhereChild, hcw] using ihw, ?_⟩
    · intro hd
      rcases hd with hba | hne
      · simp only [containsSelectList, hcs, Bool.false_or] at hba
        exact ihc (Or.inl hba)
      · exact ihc (Or.inr hne)
    · intro q' hq'
      rcases iht q' hq' with ⟨c2, hmem, hrest⟩ | hright
      · exact Or.inl ⟨c2, List.mem_cons_of_mem _ hmem, hrest⟩
      · exact Or.inr hright

/-- C2: whenever `parse_query` succeeds, the resulting query satisfies the
§3 invariants against the recognizer's parse tree: at least one column (and
exactly one table, by construction of the `SelectQuery` type), the WHERE
clause present iff the tree carries a `where_clause` node, and the same
invariants recursively for the inner query of every `Table.Subquery` at
every nesting depth. -/
theorem claim_C2_invariants (input : String) (q : SelectQuery)
    (h : parse_query input = .ok q) :
    ∃ p, recognize input = some p ∧ QInv p q := by
  simp only [parse_query] at h
  cases hx : recognize input with
  | none => simp [hx] at h
  | some p =>
    simp only [hx] at h
    exact ⟨p, rfl, buildCluster_inv.1 p (recognize_wf input p hx) q h⟩

/-- Witness for C2 at a concrete successful parse with a WHERE clause. -/
theorem claim_C2_witness :
    ∃ p, recognize "SELECT name FROM users WHERE active = true" = some p ∧
      QInv p (SelectQuery.mk [.Column "name"] (.Simple "users")
        (some ⟨"active", "=", .Boolean true⟩)) :=
  claim_C2_invariants _ _ rfl

/-!
## Claim C1: the comma-separated simple-column input family
-/

theorem takeWhile_append_all (l1 l2 : List Char) (p : Char → Bool) (h : l1.all p = true) :
    (l1 ++ l2).takeWhile p = l1 ++ l2.takeWhile p := by
  induction l1 with
  | nil => simp
  | cons c cs ih =>
    rw [List.all_cons, Bool.and_eq_true] at h
    simp only [List.cons_append]
    rw [List.takeWhile_cons_of_pos h.1, ih h.2]

theorem dropWhile_append_all (l1 l2 : List Char) (p : Char → Bool) (h : l1.all p = true) :
    (l1 ++ l2).dropWhile p = l2.dropWhile p := by
  induction l1 with
  | nil => simp
  | cons c cs ih =>
    rw [List.all_cons, Bool.and_eq_true] at h
    simp only [List.cons_append, List.dropWhile_cons, h.1, if_true]
    exact ih h.2

theorem identStart_not_ws (c : Char) (h : isIdentStartChar c = true) : isWsChar c = false := by
  by_contra hcon
  rw [Bool.not_eq_false] at hcon
  simp only [isWsChar, Bool.or_eq_true, decide_eq_true_eq] at hcon
  rcases hcon with ((rfl | rfl) | rfl) | rfl <;> exact absurd h (by decide)

theorem skipWs_cons_not_ws (c : Char) (l : List Char) (h : isWsChar c = false) :
    skipWs (c :: l) = c :: l := by
  simp [skipWs, List.dropWhile_cons, h]

theorem skipWs_cons_ws (c : Char) (l : List Char) (h : isWsChar c = true) :
    skipWs (c :: l) = skipWs l := by
  simp [skipWs, List.dropWhile_cons, h]

theorem validIdent_ne_nil (s : String) (hv : isValidIdent s = true) : s.data ≠ [] := by
  rcases s with ⟨l⟩
  rcases l with _ | ⟨c, cs⟩
  · simp [isValidIdent] at hv
  · simp

theorem skipWs_validIdent (s : String) (rest : List Char) (hv : isValidIdent s = true) :
    skipWs (s.data ++ rest) = s.data ++ rest := by
  rcases s with ⟨l⟩
  rcases l with _ | ⟨c, cs⟩
  · simp [isValidIdent] at hv
  · have hstart : isIdentStartChar c = true := by
      simp only [isValidIdent, Bool.and_eq_true] at hv
      exact hv.1.1
    show skipWs (c :: (cs ++ rest)) = c :: (cs ++ rest)
    exact skipWs_cons_not_ws c _ (identStart_not_ws c hstart)

theorem identToken_exact (s : String) (rest : List Char) (hv : isValidIdent s = true)
    (hbreak : ∀ d, rest.head? = some d → isIdentChar d = false) :
    identToken (s.data ++ rest) = some (s, rest) := by
  rcases s with ⟨l⟩
  rcases l with _ | ⟨c, cs⟩
  · simp [isValidIdent] at hv
  · simp only [isValidIdent, Bool.and_eq_true, Bool.not_eq_true'] at hv
    obtain ⟨⟨hstart, hall⟩, hkw⟩ := hv
    have hrest_take : rest.takeWhile isIdentChar = [] := by
      cases rest with
      | nil => rfl
      | cons d ds => exact List.takeWhile_cons_of_neg (by simp [hbreak d rfl])
    have hrest_drop : rest.dropWhile isIdentChar = rest := by
      cases rest with
      | nil => rfl
      | cons d ds => simp [List.dropWhile_cons, hbreak d rfl]
    show identToken (c :: (cs ++ rest)) = some (String.mk (c :: cs), rest)
    simp only [identToken]
    rw [if_pos hstart]
    have htake : (c :: (cs ++ rest)).takeWhile isIdentChar = c :: cs := by
      have h2 : ((c :: cs) ++ rest).takeWhile isIdentChar =
          (c :: cs) ++ rest.takeWhile isIdentChar := takeWhile_append_all _ _ _ hall
      simpa [hrest_take] using h2
    have hdrop : (c :: (cs ++ rest)).dropWhile isIdentChar = rest := by
      have h2 : ((c :: cs) ++ rest).dropWhile isIdentChar =
          rest.dropWhile isIdentChar := dropWhile_append_all _ _ _ hall
      simpa [hrest_drop] using h2
    rw [htake, hdrop, if_neg (by rw [hkw]; simp)]

theorem c1_funcall_none (fuel : Nat) (c : String) (rest : List Char)
    (hv : isValidIdent c = true)
    (hbreak : ∀ d, rest.head? = some d → isIdentChar d = false)
    (hparen : ∀ d, (skipWs rest).head? = some d → d ≠ '(') :
    parseFunctionCall fuel (c.data ++ rest) = none := by
  cases fuel with
  | zero => rfl
  | succ g =>
    simp only [parseFunctionCall, identToken_exact c rest hv hbreak]
    split
    · rename_i r2 heq
      exact absurd rfl (hparen '(' (by rw [heq]; rfl))
    · rfl

theorem c1_item (fuel : Nat) (c : String) (l rest : List Char)
    (hskip : skipWs l = c.data ++ rest)
    (hv : isValidIdent c = true)
    (hbreak : ∀ d, rest.head? = some d → isIdentChar d = false)
    (hparen : ∀ d, (skipWs rest).head? = some d → d ≠ '(') :
    parseSelectItem (fuel + 1) l =
      some (Pair.mk .select_item "" [Pair.mk .identifier c []], rest) := by
  simp only [parseSelectItem, hskip, c1_funcall_none fuel c rest hv hbreak hparen,
    identToken_exact c rest hv hbreak]

theorem joinCols_cons_data (c : String) (cs : List String) :
    (joinCols (c :: cs)).data = c.data ++ listSepChars cs := by
  cases cs with
  | nil => simp [joinCols, listSepChars]
  | cons d ds =>
    show (c ++ ", " ++ joinCols (d :: ds)).data = _
    simp only [String.data_append, listSepChars, List.append_assoc]
    rfl

theorem joinCols_length (cols : List String) (hv : ∀ c ∈ cols, isValidIdent c = true) :
    cols.length ≤ (joinCols cols).data.length := by
  induction cols with
  | nil => simp
  | cons c cs ih =>
    have hc1 : 1 ≤ c.data.length := by
      have := validIdent_ne_nil c (hv c (List.mem_cons_self c cs))
      cases hd : c.data with
      | nil => exact absurd hd this
      | cons x xs => simp
    rw [joinCols_cons_data, List.length_append]
    cases cs with
    | nil => simpa [listSepChars] using hc1
    | cons d ds =>
      have hrec := ih (fun x hx => hv x (List.mem_cons_of_mem _ hx))
      simp only [listSepChars, List.length_cons]
      simp only [List.length_cons] at hrec ⊢
      omega

theorem c1_listRest (suffix : List Char)
    (hs1 : ∀ d, suffix.head? = some d → isIdentChar d = false)
    (hs2 : ∀ d, (skipWs suffix).head? = some d → d ≠ '(' ∧ d ≠ ',') :
    ∀ (cs : List String) (fuel : Nat), cs.length + 1 ≤ fuel →
      (∀ c ∈ cs, isValidIdent c = true) →
      parseListRest fuel (listSepChars cs ++ suffix) =
        some (cs.map (fun c => Pair.mk .select_item "" [Pair.mk .identifier c []]), suffix) := by
  intro cs
  induction cs with
  | nil =>
    intro fuel hf _
    obtain ⟨g, rfl⟩ : ∃ g, fuel = g + 1 := ⟨fuel - 1, by omega⟩
    simp only [listSepChars, List.nil_append, parseListRest]
    split
    · rename_i r1 heq
      exact absurd rfl ((hs2 ',' (by rw [heq]; rfl)).2)
    · rfl
  | cons c cs ih =>
    intro fuel hf hv
    obtain ⟨g, rfl⟩ : ∃ g, fuel = g + 1 := ⟨fuel - 1, by omega⟩
    have hg1 : cs.length + 1 ≤ g := by
      simp only [List.length_cons] at hf
      omega
    obtain ⟨g2, rfl⟩ : ∃ g2, g = g2 + 1 := ⟨g - 1, by omega⟩
    have hvc : isValidIdent c = true := hv c (List.mem_cons_self c cs)
    have hbreak2 : ∀ d, (listSepChars cs ++ suffix).head? = some d → isIdentChar d = false := by
      cases cs with
      | nil => simpa [listSepChars] using hs1
      | cons d ds =>
        intro d2 hd2
        simp only [listSepChars, List.cons_append, List.head?_cons, Option.some.injEq] at hd2
        subst hd2
        decide
    have hparen2 : ∀ d, (skipWs (listSepChars cs ++ suffix)).head? = some d → d ≠ '(' := by
      cases cs with
      | nil =>
        intro d hd
        exact ((hs2 d (by simpa [listSepChars] using hd))).1
      | cons d ds =>
        intro d2 hd2
        rw [show listSepChars (d :: ds) ++ suffix =
            ',' :: (' ' :: ((joinCols (d :: ds)).data ++ suffix)) from rfl] at hd2
        rw [skipWs_cons_not_ws ',' _ (by decide)] at hd2
        simp only [List.head?_cons, Option.some.injEq] at hd2
        subst hd2
        decide
    have hskipitem : skipWs (' ' :: ((joinCols (c :: cs)).data ++ suffix)) =
        c.data ++ (listSepChars cs ++ suffix) := by
      rw [skipWs_cons_ws ' ' _ (by decide), joinCols_cons_data, List.append_assoc]
      exact skipWs_validIdent c _ hvc
    show (match parseSelectItem (g2 + 1) (' ' :: ((joinCols (c :: cs)).data ++ suffix)) with
      | none => none
      | some (item, r2) =>
        match parseListRest (g2 + 1) r2 with
        | none => none
        | some (items, r3) => some (item :: items, r3)) =
      some ((c :: cs).map (fun c => Pair.mk .select_item "" [Pair.mk .identifier c []]), suffix)
    simp only [c1_item g2 c _ _ hskipitem hvc hbreak2 hparen2,
      ih (g2 + 1) hg1 (fun x hx => hv x (List.mem_cons_of_mem _ hx)), List.map_cons]

theorem c1_list (cols : List String) (suffix : List Char) (l : List Char) (fuel : Nat)
    (hne : cols ≠ [])
    (hv : ∀ c ∈ cols, isValidIdent c = true)
    (hs1 : ∀ d, suffix.head? = some d → isIdentChar d = false)
    (hs2 : ∀ d, (skipWs suffix).head? = some d → d ≠ '(' ∧ d ≠ ',')
    (hf : cols.length + 2 ≤ fuel)
    (hskip : skipWs l = (joinCols cols).data ++ suffix) :
    parseSelectList fuel l =
      some (Pair.mk .select_list ""
        (cols.map (fun c => Pair.mk .select_item "" [Pair.mk .identifier c []])), suffix) := by
  obtain ⟨c, cs, rfl⟩ : ∃ c cs, cols = c :: cs := by
    cases cols with
    | nil => exact absurd rfl hne
    | cons a b => exact ⟨a, b, rfl⟩
  obtain ⟨g, rfl⟩ : ∃ g, fuel = g + 1 := ⟨fuel - 1, by omega⟩
  have hg2 : cs.length + 2 ≤ g := by
    simp only [List.length_cons] at hf
    omega
  obtain ⟨g2, rfl⟩ : ∃ g2, g = g2 + 1 := ⟨g - 1, by omega⟩
  simp only [parseSelectList]
  have hvc : isValidIdent c = true := hv c (List.mem_cons_self c cs)
  have hskip2 : skipWs l = c.data ++ (listSepChars cs ++ suffix) := by
    rw [hskip, joinCols_cons_data, List.append_assoc]
  have hbreak2 : ∀ d, (listSepChars cs ++ suffix).head? = some d → isIdentChar d = false := by
    cases cs with
    | nil => simpa [listSepChars] using hs1
    | cons d ds =>
      intro d2 hd2
      simp only [listSepChars, List.cons_append, List.head?_cons, Option.some.injEq] at hd2
      subst hd2
      decide
  have hparen2 : ∀ d, (skipWs (listSepChars cs ++ suffix)).head? = some d → d ≠ '(' := by
    cases cs with
    | nil =>
      intro d hd
      exact ((hs2 d (by simpa [listSepChars] using hd))).1
    | cons d ds =>
      intro d2 hd2
      rw [show listSepChars (d :: ds) ++ suffix =
          ',' :: (' ' :: ((joinCols (d :: ds)).data ++ suffix)) from rfl] at hd2
      rw [skipWs_cons_not_ws ',' _ (by decide)] at hd2
      simp only [List.head?_cons, Option.some.injEq] at hd2
      subst hd2
      decide
  simp only [c1_item g2 c _ _ hskip2 hvc hbreak2 hparen2,
    c1_listRest suffix hs1 hs2 cs (g2 + 1) (by omega)
      (fun x hx => hv x (List.mem_cons_of_mem _ hx)),
    List.map_cons]

theorem c1_rows (cols : List String) :
    selectedRowsLoop (cols.map fun c => Pair.mk .select_item "" [Pair.mk .identifier c []]) =
      .ok (cols.map fun c => SelectItem.Column c) := by
  induction cols with
  | nil => rfl
  | cons c cs ih =>
    simp only [List.map_cons, selectedRowsLoop, Pair.rule]
    rw [show parse_select_item (Pair.mk .select_item "" [Pair.mk .identifier c []]) =
      .ok (.Column c) from rfl]
    rw [ih]

theorem c1_parse_ok (cols : List String) (tbl : String) (hne : cols ≠ [])
    (hv : ∀ c ∈ cols, isValidIdent c = true) (ht : isValidIdent tbl = true) :
    parse_query (mkSelectInput cols tbl) =
      .ok (SelectQuery.mk (cols.map fun c => SelectItem.Column c) (.Simple tbl) none) := by
  have hdata : (mkSelectInput cols tbl).data =
      "SELECT ".data ++ ((joinCols cols).data ++
        (' ' :: 'F' :: 'R' :: 'O' :: 'M' :: ' ' :: tbl.data)) := by
    simp only [mkSelectInput, String.data_append, List.append_assoc]
    rfl
  have hs1 : ∀ d, (' ' :: 'F' :: 'R' :: 'O' :: 'M' :: ' ' :: tbl.data).head? = some d →
      isIdentChar d = false := by
    intro d hd
    simp only [List.head?_cons, Option.some.injEq] at hd
    subst hd
    decide
  have hs2 : ∀ d,
      (skipWs (' ' :: 'F' :: 'R' :: 'O' :: 'M' :: ' ' :: tbl.data)).head? = some d →
      d ≠ '(' ∧ d ≠ ',' := by
    intro d hd
    rw [show skipWs (' ' :: 'F' :: 'R' :: 'O' :: 'M' :: ' ' :: tbl.data) =
        'F' :: 'R' :: 'O' :: 'M' :: ' ' :: tbl.data from rfl] at hd
    simp only [List.head?_cons, Option.some.injEq] at hd
    subst hd
    exact ⟨by decide, by decide⟩
  have hlen : cols.length ≤ (joinCols cols).data.length := joinCols_length cols hv
  have h7 : "SELECT ".data.length = 7 := rfl
  have hfuel : cols.length + 3 ≤ fuelFor (mkSelectInput cols tbl).data := by
    simp only [fuelFor, hdata, List.length_append, List.length_cons, h7]
    omega
  obtain ⟨g, hgeq⟩ : ∃ g, fuelFor (mkSelectInput cols tbl).data = g + 1 :=
    ⟨2 * (mkSelectInput cols tbl).data.length + 7, by simp [fuelFor]⟩
  have hglen : cols.length + 2 ≤ g := by omega
  have hsel : matchCI "select".data
      (skipWs ("SELECT ".data ++ ((joinCols cols).data ++
        (' ' :: 'F' :: 'R' :: 'O' :: 'M' :: ' ' :: tbl.data)))) =
      some (' ' :: ((joinCols cols).data ++
        (' ' :: 'F' :: 'R' :: 'O' :: 'M' :: ' ' :: tbl.data))) := rfl
  have hskipl : skipWs (' ' :: ((joinCols cols).data ++
      (' ' :: 'F' :: 'R' :: 'O' :: 'M' :: ' ' :: tbl.data))) =
      (joinCols cols).data ++ (' ' :: 'F' :: 'R' :: 'O' :: 'M' :: ' ' :: tbl.data) := by
    obtain ⟨c, cs, rfl⟩ : ∃ c cs, cols = c :: cs := by
      cases cols with
      | nil => exact absurd rfl hne
      | cons a b => exact ⟨a, b, rfl⟩
    rw [skipWs_cons_ws ' ' _ (by decide), joinCols_cons_data, List.append_assoc]
    exact skipWs_validIdent c _ (hv c (List.mem_cons_self c cs))
  have hlist : parseSelectList g (' ' :: ((joinCols cols).data ++
      (' ' :: 'F' :: 'R' :: 'O' :: 'M' :: ' ' :: tbl.data))) =
      some (Pair.mk .select_list ""
        (cols.map (fun c => Pair.mk .select_item "" [Pair.mk .identifier c []])),
        ' ' :: 'F' :: 'R' :: 'O' :: 'M' :: ' ' :: tbl.data) :=
    c1_list cols _ _ g hne hv hs1 hs2 hglen hskipl
  have hfrom : matchCI "from".data
      (skipWs (' ' :: 'F' :: 'R' :: 'O' :: 'M' :: ' ' :: tbl.data)) =
      some (' ' :: tbl.data) := rfl
  have htbl : parseTable g (' ' :: tbl.data) =
      some (Pair.mk .table "" [Pair.mk .identifier tbl []], []) := by
    obtain ⟨g2, rfl⟩ : ∃ g2, g = g2 + 1 := ⟨g - 1, by omega⟩
    simp only [parseTable]
    have hskt : skipWs (' ' :: tbl.data) = tbl.data := by
      rw [skipWs_cons_ws ' ' _ (by decide)]
      have h2 := skipWs_validIdent tbl [] ht
      simpa using h2
    rw [hskt]
    have hidt : identToken tbl.data = some (tbl, []) := by
      have h2 := identToken_exact tbl [] ht (by intro d hd; simp at hd)
      simpa using h2
    simp only [hidt]
  have hwnone : parseWhereClauseNode ([] : List Char) = none := rfl
  have hparse : parseSelectQuery (g + 1) (mkSelectInput cols tbl).data =
      some (Pair.mk .select_query ""
        [Pair.mk .select_list ""
          (cols.map (fun c => Pair.mk .select_item "" [Pair.mk .identifier c []])),
         Pair.mk .table "" [Pair.mk .identifier tbl []]], []) := by
    rw [hdata]
    simp only [parseSelectQuery, hsel, hlist, hfrom, htbl, hwnone]
  have hrec : recognize (mkSelectInput cols tbl) =
      some (Pair.mk .select_query ""
        [Pair.mk .select_list ""
          (cols.map (fun c => Pair.mk .select_item "" [Pair.mk .identifier c []])),
         Pair.mk .table "" [Pair.mk .identifier tbl []]]) := by
    simp only [recognize, hgeq, hparse]
  simp only [parse_query, hrec]
  have hrows := c1_rows cols
  simp only [build_query_structure, buildFields, Pair.rule, selected_rows_builder, hrows,
    table_builder, Pair.text]

/-- C1: for every input `SELECT c1, ..., cN FROM t` with `N ≥ 1` valid
simple column identifiers and a valid table name, `parse_query` succeeds
with exactly the `N` `Column` items in source order, table `Simple t` and no
WHERE clause; in particular the spec's `SELECT name, age FROM users`
example. -/
theorem claim_C1_simple_columns (cols : List String) (tbl : String) (hne : cols ≠ [])
    (hv : ∀ c ∈ cols, isValidIdent c = true) (ht : isValidIdent tbl = true) :
    parse_query (mkSelectInput cols tbl) =
      .ok (SelectQuery.mk (cols.map fun c => SelectItem.Column c) (.Simple tbl) none) ∧
    (cols.map fun c => SelectItem.Column c).length = cols.length ∧
    parse_query "SELECT name, age FROM users" =
      .ok (SelectQuery.mk [.Column "name", .Column "age"] (.Simple "users") none) :=
  ⟨c1_parse_ok cols tbl hne hv ht, by simp, rfl⟩

/-- Witness for C1 at the two-column instance `SELECT name, age FROM users`. -/
theorem claim_C1_witness :
    parse_query (mkSelectInput ["name", "age"] "users") =
      .ok (SelectQuery.mk ((["name", "age"] : List String).map fun c => SelectItem.Column c)
        (.Simple "users") none) ∧
    ((["name", "age"] : List String).map fun c => SelectItem.Column c).length =
      (["name", "age"] : List String).length ∧
    parse_query "SELECT name, age FROM users" =
      .ok (SelectQuery.mk [.Column "name", .Column "age"] (.Simple "users") none) :=
  claim_C1_simple_columns ["name", "age"] "users" (by decide) (by decide) (by decide)

end SqlSelect
